import Mathlib

/-!
Verification development for the 4chess-fortress rules engine.

The Python source (`4chess.py`, `utils.py`) is embedded shallowly:

* machine state (`Board`) is an explicit record, mutation is modelled by
  state passing;
* Python code that can raise (`ValueError`, `KeyError`, `IndexError`,
  `AttributeError`, unbounded recursion hitting the interpreter's
  recursion limit) is modelled by `Option`-returning functions, `none`
  standing for the aborted call;
* Python dictionaries with color keys are association lists, preserving
  key order and the possibility of missing keys;
* board positions such as the string "E03" are pairs of the 0-based
  column index (`ord(ch) - ord("A")`) and the 1-based row number; every
  `Square.position` stored by the engine is normalized (upper case,
  zero-padded row), so the string comparisons of the source coincide
  with the numeric comparisons used here.
-/

set_option maxRecDepth 4000

/-- The six chess piece kinds of `Piece.pieces`. -/
inductive PieceType
  | king | queen | rook | bishop | knight | pawn
deriving DecidableEq

/-- The four player colors of `Board.COLORS`, in declaration order. -/
inductive Color
  | white | brown | grey | black
deriving DecidableEq

/-- A piece: `Piece(_type, _color)`; equality is structural (type and color). -/
structure Piece where
  type : PieceType
  color : Color
deriving DecidableEq

/-- Index of a color in `Board.COLORS = ("white", "brown", "grey", "black")`. -/
def colorIndex : Color → Nat
  | .white => 0
  | .brown => 1
  | .grey => 2
  | .black => 3

/-- Element of `Board.COLORS` at an index taken modulo 4 (Python negative
indices on the 4-element tuple wrap exactly once, which is `% 4` on the
index values that occur in the source). -/
def colorAt (i : Nat) : Color :=
  match i % 4 with
  | 0 => .white
  | 1 => .brown
  | 2 => .grey
  | _ => .black

/-- The tuple `Board.COLORS` as a list. -/
def COLORS : List Color := [.white, .brown, .grey, .black]

/-- `Board.COLORS[::-1].index(color)`, the index of a color in the reversed
color tuple; used as a rotation count throughout the source. -/
def revColorIndex (c : Color) : Nat := 3 - colorIndex c

/-- The team tuple `Board.TEAMS = (("white", "grey"), ("brown", "black"))`. -/
def TEAMS : List (List Color) := [[.white, .grey], [.brown, .black]]

/-- `Board.get_teams(color)` with the default `own_first=True`: the team pairs
reordered so that `color` is in the first returned team. -/
def get_teams (c : Color) : List Color × List Color :=
  if c = .brown ∨ c = .black then ([.brown, .black], [.white, .grey])
  else ([.white, .grey], [.brown, .black])

/-- A board position: 0-based column index (letter A–P) and 1-based row
number, the numeric reading of a normalized position string like "E03". -/
structure Pos where
  c : Nat
  r : Nat
deriving DecidableEq

/-- `Square.pos_stoi`: the 1-based `board.layout` index of a position,
`ord(pos[0]) - ord("A") + (int(pos[1:]) - 1) * 16 + 1`. -/
def pos_stoi (p : Pos) : Nat := p.c + (p.r - 1) * 16 + 1

/-- `Square.pos_itos`: position of a 1-based layout index,
`chr(ord("A") + (pos-1) % 16)` and `pos // 16 + (1 if pos % 16 != 0 else 0)`. -/
def pos_itos (n : Nat) : Pos :=
  ⟨(n - 1) % 16, n / 16 + (if n % 16 = 0 then 0 else 1)⟩

/-- `Square.pos_rot90` for a non-negative repetition count: one clockwise
quarter turn maps column `c` (0-based) and row `r` (1-based) to column
`ord("P") - r + 1 - ord("A") = 16 - r` and row `c + 1`. -/
def pos_rot90 (p : Pos) : Nat → Pos
  | 0 => p
  | n + 1 => pos_rot90 ⟨16 - p.r, p.c + 1⟩ n

/-- `Square.pos_rot90` exactly as written in the source, for an arbitrary
integer `times` argument: the recursion decrements `times` until it equals
zero, so for negative `times` it never reaches the base case.  The fuel
argument bounds the recursion depth; `none` means the call has not
terminated within that depth (in Python the interpreter aborts with
`RecursionError` once its recursion limit is exceeded). -/
def pos_rot90_fuel : Nat → Pos → Int → Option Pos
  | 0, _, _ => none
  | fuel + 1, p, times =>
    if times = 0 then some p
    else pos_rot90_fuel fuel ⟨16 - p.r, p.c + 1⟩ (times - 1)

/-- The call `Square.pos_rot90(pos, times)` terminates: some recursion depth
suffices for it to return. -/
def pos_rot90_terminates (p : Pos) (times : Int) : Prop :=
  ∃ fuel, (pos_rot90_fuel fuel p times).isSome

/-- `Square.pos_rot90_list`: rotate every position of a list. -/
def pos_rot90_list (l : List Pos) (times : Nat) : List Pos :=
  l.map (pos_rot90 · times)

/-- A position is on the 16×16 grid (column letter A–P, row 1–16). -/
def Pos.valid (p : Pos) : Prop := p.c ≤ 15 ∧ 1 ≤ p.r ∧ p.r ≤ 16

instance (p : Pos) : Decidable p.valid := by
  unfold Pos.valid; infer_instance

/-- `utils.list_in_list`: whether any (or, with `require_all`, every) element
of `l1` is an element of `l2`. -/
def list_in_list {α : Type} [DecidableEq α] (l1 l2 : List α) (require_all : Bool) : Bool :=
  match l1 with
  | [] => require_all
  | i :: rest =>
    if i ∈ l2 then
      if require_all then list_in_list rest l2 true else true
    else
      if require_all then false else list_in_list rest l2 false

/-- Python `range(a, b, step)` for `step = 1` or `step = -1`, over integers. -/
def pyRange (a b step : Int) : List Int :=
  if 0 < step then (List.range (b - a).toNat).map (fun (i : Nat) => a + i)
  else (List.range (a - b).toNat).map (fun (i : Nat) => a - i)

/-- `utils.str_range(start, stop, step)` over character codes: the
stop-inclusive range `range(ord(start), ord(stop) + (1 if step > 0 else -1),
step)`. -/
def str_range (start stop step : Int) : List Int :=
  pyRange start (stop + (if 0 < step then 1 else -1)) step

/-- `Square.get_ray(pos1, pos2)`: the inclusive list of squares between the
two positions, built by zipping the file range with the rank range; `none`
models the `ValueError` raised when the positions are not diagonal.  Columns
are handled as the character codes `c + ord("A")` of the source. -/
def get_ray (p1 p2 : Pos) : Option (List Pos) :=
  if ((p1.c : Int) - p2.c).natAbs ≠ ((p1.r : Int) - p2.r).natAbs then none
  else
    let ystep : Int := if p1.r < p2.r then 1 else -1
    let files := str_range ((p1.c : Int) + 65) ((p2.c : Int) + 65)
      (if p1.c + 65 < p2.c + 65 then 1 else -1)
    let ranks := pyRange (p1.r : Int) ((p2.r : Int) + ystep) ystep
    some ((files.zip ranks).map (fun ab => ⟨(ab.1 - 65).toNat, ab.2.toNat⟩))

/-- A board square: a normalized position together with the piece standing on
it, if any; equality is structural, as for the Python class. -/
structure Square where
  position : Pos
  piece_at : Option Piece
deriving DecidableEq

/-- `Square.square_in_ray`: whether any (or all) of the given squares lie on
the diagonal ray between the two positions; `none` models the `ValueError`
propagated out of `get_ray`. -/
def square_in_ray (squares : List Square) (p1 p2 : Pos) (require_all : Bool) :
    Option Bool := do
  let ray ← get_ray p1 p2
  pure (list_in_list (squares.map (·.position)) ray require_all)

/-- `Square.check_enemy`: the optional square holds a piece of one of the
given colors. -/
def check_enemy (square : Option Square) (colors : List Color) : Bool :=
  match square with
  | none => false
  | some sq =>
    match sq.piece_at with
    | none => false
    | some p => p.color ∈ colors

/-- A candidate move: the two endpoint squares as captured at construction
time (the destination may be the absent-square result `None` of
`Board.get_square`), an optional promotion piece, and the derived fields
`_castling` and `_checks` that `Board.is_valid` assigns. -/
structure Move where
  from_square : Square
  to_square : Option Square
  promotion : Option Piece
  castling : Option (Bool × Bool)
  checks : Option (List (Color × Bool))
deriving DecidableEq

/-- The full engine state of the Python `Board` class.  The color-keyed
dictionaries are association lists in key-insertion order; `layout` is the
256-slot list of optional squares; `winner` is a team tuple or `None`. -/
structure Board where
  turn : Color
  graveyard : List Piece
  castling_rights : List (Color × (Bool × Bool))
  checked : List (Color × Bool)
  frozen : List (Color × Bool)
  layout : List (Option Square)
  winner : Option (List Color)
  move_stack : List Move
deriving DecidableEq

/-- Dictionary read `d[k]` / `d.get(k)`: `none` models a missing key (the
caller decides between `KeyError` and a `.get` default). -/
def dget {α : Type} (l : List (Color × α)) (k : Color) : Option α :=
  (l.find? (fun kv => decide (kv.1 = k))).map (·.2)

/-- Dictionary assignment `d[k] = v` to an existing key (every assignment in
the source follows a read of the same key, so the key is present). -/
def dset {α : Type} (l : List (Color × α)) (k : Color) (v : α) : List (Color × α) :=
  l.map (fun kv => if kv.1 = k then (k, v) else kv)

/-- `Board.update_square`: store the square at `layout[int(square) - 1]`. -/
def Board.update_square (b : Board) (square : Square) : Board :=
  { b with layout := b.layout.set (pos_stoi square.position - 1) (some square) }

/-- `Board.get_square` by 1-based layout index.  An out-of-range index raises
in Python; every board built by this development has all 256 slots and
bounds-checked callers, so the out-of-range read is mapped to the
absent-square result. -/
def Board.get_square (b : Board) (num : Nat) : Option Square :=
  (b.layout.get? (num - 1)).join

/-- `Board.get_square` applied to a position string. -/
def Board.get_square_pos (b : Board) (p : Pos) : Option Square :=
  b.get_square (pos_stoi p)

/-- `Board.currently_frozen`: the colors whose frozen flag is set, in
dictionary order. -/
def Board.currently_frozen (b : Board) : List Color :=
  b.frozen.filterMap (fun kv => if kv.2 then some kv.1 else none)

/-- `Board.get_neighbour`: the square offset from `square` by
`(column, row)`, color-relative when `adjust` is set and the square is
occupied; `none` when the target is off the 16×16 grid or an absent square. -/
def Board.get_neighbour (b : Board) (square : Square) (column row : Int)
    (adjust : Bool) : Option Square :=
  let cr : Int × Int :=
    match square.piece_at, adjust with
    | some p, true =>
      ((if p.color = .black then row else if p.color = .brown then -row
        else if p.color = .grey then column else -column),
       (if p.color = .grey then row else if p.color = .white then -row
        else if p.color = .brown then column else -column))
    | _, _ => (column, row)
  let c : Int := (square.position.c : Int) + cr.1
  let r : Int := (square.position.r : Int) + cr.2
  if ¬(0 ≤ c ∧ c ≤ 15 ∧ 1 ≤ r ∧ r ≤ 16) then none
  else b.get_square_pos ⟨c.toNat, r.toNat⟩

/-- `Board.get_kings(ignore=...)`: for every non-ignored color, the first
layout square holding that color's king; `none` models the `IndexError`
raised when some such color has no king on the board. -/
def Board.get_kings (b : Board) (ignore : Option Color) : Option (List Square) :=
  (COLORS.filter (fun col => decide (ignore ≠ some col))).mapM (fun col =>
    (b.layout.filterMap id).find? (fun sq => decide (sq.piece_at = some ⟨.king, col⟩)))

/-- Scan of one ray direction of `Move.check_check`: step outward until the
first occupied square (attack decided there) or the board edge.  The Python
loop is unbounded but always leaves the 16-wide grid within 16 steps, so 16
units of fuel reproduce it exactly. -/
def rayAttack (b : Board) (square : Square) (dc dr : Int)
    (enemy_team : List Color) (kinds : List PieceType) (cf : List Color) :
    Nat → Int → Bool
  | 0, _ => false
  | fuel + 1, step =>
    match b.get_neighbour square (dc * step) (dr * step) false with
    | none => false
    | some t1 =>
      match t1.piece_at with
      | none => rayAttack b square dc dr enemy_team kinds cf fuel (step + 1)
      | some p => decide (p.color ∈ enemy_team ∧ p.type ∈ kinds ∧ p.color ∉ cf)

/-- `Move.check_check(board, square)`: whether the king on `square` is
attacked by a non-frozen enemy rook/bishop/knight/queen or pawn. -/
def Move.check_check (b : Board) (square : Square) : Bool :=
  match square.piece_at with
  | none => false
  | some kp =>
    if kp.type ≠ .king then false
    else
      let enemy_team := (get_teams kp.color).2
      let cf := b.currently_frozen
      let dirsets : List ((Int × Int) × (Int × Int) × List (Int × Int)) :=
        [((1, 0), (1, 1), [(1, 2), (-1, 2)]),
         ((0, 1), (1, -1), [(1, -2), (-1, -2)]),
         ((-1, 0), (-1, -1), [(2, 1), (2, -1)]),
         ((0, -1), (-1, 1), [(-2, 1), (-2, -1)])]
      let hit := dirsets.any (fun x =>
        rayAttack b square x.1.1 x.1.2 enemy_team [.rook, .queen] cf 16 1 ||
        rayAttack b square x.2.1.1 x.2.1.2 enemy_team [.bishop, .queen] cf 16 1 ||
        x.2.2.any (fun d =>
          match b.get_neighbour square d.1 d.2 false with
          | none => false
          | some t1 =>
            match t1.piece_at with
            | none => false
            | some p => decide (p.color ∈ enemy_team ∧ p.type ∈ ([.knight, .queen] : List PieceType) ∧ p.color ∉ cf)))
      let corners : List (Nat × Int × Int) :=
        [(0, -1, 1), (1, -1, -1), (2, 1, 1), (3, 1, -1)]
      let pawnHit := corners.any (fun cn =>
        match b.get_neighbour square cn.2.1 cn.2.2 false with
        | none => false
        | some t1 =>
          match t1.piece_at with
          | none => false
          | some p =>
            if p.type ≠ .pawn then false
            else
              let index0 : Int := (colorIndex kp.color : Int) - 1
              let index : Int :=
                if kp.color = .brown ∨ kp.color = .black then
                  if cn.1 % 2 = (if kp.color = .brown then 1 else 0) then index0 - 2
                  else index0
                else
                  (if kp.color = .grey then index0 - 2 else index0) +
                    ((cn.1 : Int) - (cn.1 % 2 : Nat))
              decide (p.color = colorAt ((index % 4).toNat) ∧ p.color ∉ cf))
      hit || pawnHit

/-- `Board.check_checks` as a function: the fresh check dictionary
`{king.color: check_check(...)}` over all kings. -/
def Board.check_checks (b : Board) : Option (List (Color × Bool)) := do
  let kings ← b.get_kings none
  kings.mapM (fun sq =>
    match sq.piece_at with
    | some p => some (p.color, Move.check_check b sq)
    | none => none)

/-- `Board.get_pawn_promotion_rank`: black's promotion region (files J–P with
the out-of-bounds notch removed) rotated into the color's orientation. -/
def get_pawn_promotion_rank (color : Color) : List Pos :=
  ((List.range 7).flatMap (fun i =>
    let l := 9 + i
    (List.range 16).filterMap (fun j =>
      let n := j + 1
      let inR : Bool := if l ≤ 11 then decide (3 ≤ n ∧ n ≤ 14) else true
      if inR ∧ ¬(14 ≤ l ∧ 4 < n ∧ n < 13) then some (⟨l, n⟩ : Pos) else none))).map
    (fun s => pos_rot90 s (revColorIndex color))

/-- The rotated home row `D5`–`D12` from which a pawn may take a double
step. -/
def pawn_home_row (color : Color) : List Pos :=
  ((List.range 8).map (fun i => (⟨3, 5 + i⟩ : Pos))).map
    (fun s => pos_rot90 s (revColorIndex color))

/-- Collecting scan of one slider ray of `Move.possible_moves`: empty squares
are appended, the first occupied square stops the ray and is appended when it
holds an enemy.  As in `rayAttack`, 16 units of fuel reproduce the unbounded
Python loop. -/
def rayCollect (b : Board) (square : Square) (dc dr : Int)
    (enemy_team : List Color) : Nat → Int → List Square
  | 0, _ => []
  | fuel + 1, step =>
    match b.get_neighbour square (dc * step) (dr * step) false with
    | none => []
    | some t1 =>
      match t1.piece_at with
      | none => t1 :: rayCollect b square dc dr enemy_team fuel (step + 1)
      | some p => if p.color ∈ enemy_team then [t1] else []

/-- The inner castling walk of `Move.possible_moves`: every stepped-over
square must exist and be empty; `none` models the `AttributeError` raised
when a step leaves the board. -/
def castlingStepsClear (b : Board) (square : Square) : List Int → Option Bool
  | [] => some true
  | s :: rest =>
    match b.get_neighbour square s 0 true with
    | none => none
    | some t1 =>
      match t1.piece_at with
      | none => castlingStepsClear b square rest
      | some _ => some false

/-- `Move.possible_moves(board, square)`: every square the piece on `square`
can travel to, ignoring fortress walls and check legality. -/
def Move.possible_moves (b : Board) (square : Square) : Option (List Square) := do
  let piece ← square.piece_at
  let enemy_team := (get_teams piece.color).2.filter (fun c => decide (c ∉ b.currently_frozen))
  if piece.type = .pawn then
    match b.get_neighbour square 0 1 true with
    | none => pure []
    | some t1 =>
      let fwd :=
        if t1.piece_at = none then
          t1 :: (if square.position ∈ pawn_home_row piece.color then
              match b.get_neighbour square 0 2 true with
              | some t2 => if t2.piece_at = none then [t2] else []
              | none => []
            else [])
        else []
      let d1 := b.get_neighbour square 1 1 true
      let d2 := b.get_neighbour square (-1) 1 true
      pure (fwd ++ (if check_enemy d1 enemy_team then d1.toList else [])
        ++ (if check_enemy d2 enemy_team then d2.toList else []))
  else if piece.type = .king then do
    let dirs : List (Int × Int) :=
      [(1, 1), (1, 0), (1, -1), (0, -1), (-1, -1), (-1, 0), (-1, 1), (0, 1)]
    let base := dirs.filterMap (fun d =>
      match b.get_neighbour square d.1 d.2 false with
      | none => none
      | some t1 =>
        match t1.piece_at with
        | none => some t1
        | some p => if p.color ∈ enemy_team then some t1 else none)
    let cr ← dget b.castling_rights piece.color
    if ¬cr.1 ∧ ¬cr.2 then pure base
    else do
      let kingsideAdd ←
        if cr.1 then do
          let clear ← castlingStepsClear b square [1, 2]
          if clear then
            match b.get_neighbour square 2 0 true with
            | some t => pure [t]
            | none => none
          else pure []
        else pure []
      let queensideAdd ←
        if cr.2 then do
          let clear ← castlingStepsClear b square [-1, -2, -3]
          if clear then
            match b.get_neighbour square (-2) 0 true with
            | some t => pure [t]
            | none => none
          else pure []
        else pure []
      pure (base ++ kingsideAdd ++ queensideAdd)
  else
    let orth : List (Int × Int) := [(1, 0), (0, 1), (-1, 0), (0, -1)]
    let diag : List (Int × Int) := [(1, 1), (1, -1), (-1, -1), (-1, 1)]
    let knightOffs : List (Int × Int) :=
      [(1, 2), (-1, 2), (1, -2), (-1, -2), (2, 1), (2, -1), (-2, 1), (-2, -1)]
    let part1 :=
      if piece.type ∈ ([.rook, .queen] : List PieceType) then
        orth.flatMap (fun d => rayCollect b square d.1 d.2 enemy_team 16 1)
      else []
    let part2 :=
      if piece.type ∈ ([.bishop, .queen] : List PieceType) then
        diag.flatMap (fun d => rayCollect b square d.1 d.2 enemy_team 16 1)
      else []
    let part3 :=
      if piece.type ∈ ([.knight, .queen] : List PieceType) then
        knightOffs.filterMap (fun d =>
          match b.get_neighbour square d.1 d.2 false with
          | none => none
          | some t1 =>
            match t1.piece_at with
            | none => some t1
            | some p => if p.color ∈ enemy_team then some t1 else none)
      else []
    pure (part1 ++ part2 ++ part3)

/-- The validation failure messages of `CheckErrorMsg`, as a closed
enumeration. -/
inductive ErrMsg
  | SquareToOutOfBounds
  | SquareFromNoPiece
  | SquareFromNotYourPiece
  | SquareFromAndToSame
  | FriendlyFire
  | WallsInTheWay
  | PromotionFromNonPawn
  | PromotionOutOfBounds
  | SquareToIllegal
  | CheckmateYourself
  | CheckmateTeammate
  | TargetFrozen
deriving DecidableEq

/-- Result of `Board.is_valid`: the pair `(False, errmsg)` or
`(True, move.checks)` of the source, together with the move object whose
derived `castling`/`checks` fields the call assigned. -/
inductive ValidRes
  | no (msg : ErrMsg) (m : Move)
  | yes (m : Move)
deriving DecidableEq

/-- The closed list `[a, b]` of naturals from `a` to `b`. -/
def rangeList (a b : Nat) : List Nat :=
  (List.range (b + 1 - a)).map (fun i => a + i)

/-- The fortress membership region of the wall check: the rotations of
columns K–P × rows 1–6. -/
def fortress_region : List Pos :=
  (List.range 4).flatMap (fun n =>
    (List.range 6).flatMap (fun ai =>
      (List.range 6).map (fun bi => pos_rot90 ⟨10 + ai, 1 + bi⟩ n)))

/-- The eight forbidden knight jumps of the wall check, in one canonical
corner orientation (F03–D02 and companions). -/
def forbidden_knight_pairs : List (Pos × Pos) :=
  [(⟨5, 3⟩, ⟨3, 2⟩), (⟨5, 3⟩, ⟨3, 4⟩), (⟨5, 4⟩, ⟨3, 3⟩), (⟨4, 3⟩, ⟨2, 2⟩),
   (⟨4, 3⟩, ⟨2, 4⟩), (⟨4, 3⟩, ⟨3, 1⟩), (⟨4, 4⟩, ⟨3, 2⟩), (⟨4, 4⟩, ⟨2, 3⟩)]

/-- The knight clause of the wall check: both endpoints fall in some rotation
of one forbidden pair. -/
def knightWallHit (fromP toP : Pos) : Bool :=
  (List.range 4).any (fun n =>
    forbidden_knight_pairs.any (fun pr =>
      list_in_list [fromP, toP] (pos_rot90_list [pr.1, pr.2] n) true))

/-- The rook clause of the wall check: the four forbidden orthogonal boundary
lines between arm and center. -/
def rookWallHit (fromP toP : Pos) : Bool :=
  let cs : List Nat := [fromP.c, toP.c]
  let rs : List Nat := [fromP.r, toP.r]
  (list_in_list cs [12, 13] true &&
    !(list_in_list rs (rangeList 1 4) true || list_in_list rs (rangeList 5 16) true)) ||
  (list_in_list cs [2, 3] true &&
    !(list_in_list rs (rangeList 1 12) true || list_in_list rs (rangeList 13 16) true)) ||
  (list_in_list rs [3, 4] true &&
    !(list_in_list cs (rangeList 0 3) true || list_in_list cs (rangeList 4 15) true)) ||
  (list_in_list rs [13, 14] true &&
    !(list_in_list cs (rangeList 0 11) true || list_in_list cs (rangeList 12 15) true))

/-- The eight forbidden bishop crossings of the wall check, each a pair of
diagonal rays, in the canonical orientation. -/
def forbidden_bishop_rays : List (List (Pos × Pos)) :=
  [[(⟨10, 3⟩, ⟨11, 4⟩), (⟨12, 5⟩, ⟨13, 6⟩)],
   [(⟨11, 3⟩, ⟨12, 4⟩), (⟨13, 5⟩, ⟨13, 5⟩)],
   [(⟨0, 14⟩, ⟨11, 3⟩), (⟨12, 2⟩, ⟨13, 1⟩)],
   [(⟨10, 3⟩, ⟨0, 13⟩), (⟨12, 1⟩, ⟨12, 1⟩)],
   [(⟨15, 1⟩, ⟨12, 4⟩), (⟨11, 5⟩, ⟨0, 16⟩)],
   [(⟨15, 2⟩, ⟨13, 4⟩), (⟨12, 5⟩, ⟨1, 16⟩)],
   [(⟨15, 3⟩, ⟨14, 4⟩), (⟨13, 5⟩, ⟨2, 16⟩)],
   [(⟨3, 16⟩, ⟨13, 6⟩), (⟨15, 4⟩, ⟨15, 4⟩)]]

/-- The bishop clause of the wall check: some rotation of some entry has both
of its rays touched by an endpoint of the move.  All catalogue rays are
diagonals, so the `get_ray` failure can never fire here. -/
def bishopWallHit (fromSq toSq : Square) : Option Bool :=
  List.anyM (fun n =>
    List.anyM (fun entry =>
      List.allM (fun (xy : Pos × Pos) =>
        square_in_ray [fromSq, toSq] (pos_rot90 xy.1 n) (pos_rot90 xy.2 n) false)
        entry)
      forbidden_bishop_rays)
    (List.range 4)

/-- The two `update_square` calls shared by `Board.move` and the check
simulation of `Board.is_valid`: empty the source square and put the moved
(or promoted) piece on `pos`. -/
def Board.place_moved_piece (b : Board) (mv : Move) (pos : Pos) : Board :=
  (b.update_square ⟨mv.from_square.position, none⟩).update_square
    ⟨pos, mv.promotion <|> mv.from_square.piece_at⟩

/-- The check-simulation loop of `Board.is_valid`: for each inspected
position, temporarily execute the move on the layout, recompute the check
map of every king (ignoring a captured king's color), restore the layout,
and reject a self-check or an unprovoked teammate check unless
`ignore_check`. -/
def Board.sim_check_loop (b : Board) (own teammate : Color)
    (ignore_check : Bool) (mv : Move) : List Pos → Option (ValidRes × Board)
  | [] => some (.yes mv, b)
  | pos :: rest => do
    let sq ← b.get_square (pos_stoi pos)
    let ignore : Option Color :=
      match sq.piece_at with
      | some p => if p.type = .king then some p.color else none
      | none => none
    let tmp := b.layout
    let b1 := b.place_moved_piece mv pos
    let kings ← b1.get_kings ignore
    let checks ← kings.mapM (fun ks =>
      match ks.piece_at with
      | some p => some (p.color, Move.check_check b1 ks)
      | none => none)
    let mv2 := { mv with checks := some checks }
    let b2 := { b1 with layout := tmp }
    if ¬ignore_check ∧ (dget checks own).getD true then
      some (.no .CheckmateYourself mv2, b2)
    else if ¬ignore_check ∧ (dget checks teammate).getD true ∧
        ¬(dget b2.checked teammate).getD false then
      some (.no .CheckmateTeammate mv2, b2)
    else
      b2.sim_check_loop own teammate ignore_check mv2 rest

/-- `Board.is_valid(move, ignore_turn, ignore_check)`: the ordered legality
pipeline, returning the verdict together with the board it leaves behind
(the simulation mutates the layout and restores it before returning). -/
def Board.is_valid (b : Board) (mv : Move) (ignore_turn ignore_check : Bool) :
    Option (ValidRes × Board) :=
  match mv.to_square with
  | none => some (.no .SquareToOutOfBounds mv, b)
  | some to_sq =>
    match mv.from_square.piece_at with
    | none => some (.no .SquareFromNoPiece mv, b)
    | some piece =>
      if ¬ignore_turn ∧ piece.color ≠ b.turn then
        some (.no .SquareFromNotYourPiece mv, b)
      else if mv.from_square = to_sq then
        some (.no .SquareFromAndToSame mv, b)
      else
        let team := (get_teams piece.color).1
        if (match to_sq.piece_at with
            | some p => decide (p.color ∈ team)
            | none => false) then
          some (.no .FriendlyFire mv, b)
        else do
          let wallHit ←
            if list_in_list [mv.from_square.position, to_sq.position]
                fortress_region false then
              if knightWallHit mv.from_square.position to_sq.position
                  || rookWallHit mv.from_square.position to_sq.position then
                pure true
              else bishopWallHit mv.from_square to_sq
            else pure false
          if wallHit then some (.no .WallsInTheWay mv, b)
          else if mv.promotion.isSome ∧ piece.type ≠ .pawn then
            some (.no .PromotionFromNonPawn mv, b)
          else if mv.promotion.isSome ∧
              to_sq.position ∉ get_pawn_promotion_rank piece.color then
            some (.no .PromotionOutOfBounds mv, b)
          else if (match to_sq.piece_at with
              | some p => decide (p.color ∈ b.currently_frozen)
              | none => false) then
            some (.no .TargetFrozen mv, b)
          else do
            let pm ← Move.possible_moves b mv.from_square
            if to_sq ∉ pm then some (.no .SquareToIllegal mv, b)
            else
              let startSq : Square :=
                ⟨pos_rot90 ⟨2, 8⟩ (revColorIndex piece.color),
                 some ⟨.king, piece.color⟩⟩
              let mvCast :=
                if mv.from_square = startSq then
                  if to_sq.position = pos_rot90 ⟨2, 6⟩ (revColorIndex piece.color) then
                    ({ mv with castling := some (true, false) }, true)
                  else if to_sq.position = pos_rot90 ⟨2, 10⟩ (revColorIndex piece.color) then
                    ({ mv with castling := some (false, true) }, true)
                  else (mv, false)
                else (mv, false)
              let mv1 := mvCast.1
              do
                let castPos ←
                  if mvCast.2 then
                    List.mapM (fun s =>
                        (b.get_neighbour mv1.from_square s 0 true).map (·.position))
                      (if (mv1.castling.getD (false, false)).1 then [(1 : Int)]
                       else [-1, -2])
                  else pure []
                let teammate :=
                  (team.filter (fun c => decide (c ≠ piece.color))).headD piece.color
                b.sim_check_loop piece.color teammate ignore_check mv1
                  (castPos ++ [to_sq.position])

/-- `Move.possible_legal_moves_color(board, color)`: all moves the color has,
each validated with `ignore_turn` and `ignore_check`; pawn moves onto the
promotion rank are attempted twice, the second time with a queen promotion.
`none` models the `ValueError` raised when the color has no piece. -/
def Move.possible_legal_moves_color (b : Board) (color : Color) :
    Option (List Move × Board) := do
  let squares := b.layout.filterMap (fun osq =>
    match osq with
    | some sq =>
      match sq.piece_at with
      | some p => if p.color = color then some sq else none
      | none => none
    | none => none)
  if squares.isEmpty then none
  else
    let cf := b.currently_frozen
    squares.foldlM (fun (st : List Move × Board) square => do
      let pms ← Move.possible_moves st.2 square
      let cands := pms.filter (fun s =>
        match s.piece_at with
        | none => true
        | some p => decide (p.color ∉ cf))
      cands.foldlM (fun (st2 : List Move × Board) possible_square => do
        let promo : Bool :=
          match square.piece_at with
          | some p =>
            decide (p.type = .pawn ∧
              possible_square.position ∈ get_pawn_promotion_rank p.color)
          | none => false
        List.foldlM (fun (st3 : List Move × Board) cflag => do
          let mv : Move :=
            ⟨square, some possible_square,
             if promo && cflag then some ⟨.queen, color⟩ else none, none, none⟩
          let rb ← st3.2.is_valid mv true true
          match rb.1 with
          | .yes m2 => pure (st3.1 ++ [m2], rb.2)
          | .no _ _ => pure (st3.1, rb.2))
          st2 (if promo then [false, true] else [false]))
        st) ([], b)

/-- `Board.is_mate(color)`: 0 when the color has a legal move, otherwise 1
(checkmate) when checked, 2 (stalemate) when not. -/
def Board.is_mate (b : Board) (color : Color) : Option (Nat × Board) := do
  let pmb ← Move.possible_legal_moves_color b color
  if ¬pmb.1.isEmpty then pure (0, pmb.2)
  else do
    let ch ← dget pmb.2.checked color
    if ch then pure (1, pmb.2) else pure (2, pmb.2)

/-- `Board.update_frozen`: recompute every color's frozen flag as
`is_mate(color) != 0`, reading the old frozen dictionary while the new one is
being built. -/
def Board.update_frozen (b : Board) : Option Board := do
  let st ← b.frozen.foldlM (fun (st : List (Color × Bool) × Board) kv => do
    let imb ← st.2.is_mate kv.1
    pure (st.1 ++ [(kv.1, decide (imb.1 ≠ 0))], imb.2)) ([], b)
  pure { st.2 with frozen := st.1 }

/-- `Board.next_turn` exactly as written: step the turn by `jumps` modulo 4
and recurse while the new color is frozen.  The turn sequence has period 4
for the jumps ±1 used by the source, so the fuel bounds the depth; when all
four colors are frozen the Python recursion never terminates (`none` for
every fuel). -/
def nextTurnFuel : Nat → Board → Int → Option Board
  | 0, _, _ => none
  | fuel + 1, b, jumps =>
    let t := colorAt ((((colorIndex b.turn : Int) + jumps) % 4).toNat)
    let b1 := { b with turn := t }
    match dget b1.frozen t with
    | none => none
    | some true => nextTurnFuel fuel b1 jumps
    | some false => some b1

/-- The call `Board.next_turn(jumps)` terminates within some recursion
depth. -/
def Board.next_turn_terminates (b : Board) (jumps : Int) : Prop :=
  ∃ fuel, (nextTurnFuel fuel b jumps).isSome

/-- `Board.next_turn(jumps)` for the jumps ±1 used by the source: four
iterations visit every color, so fuel 4 is exact. -/
def Board.next_turn (b : Board) (jumps : Int) : Option Board :=
  nextTurnFuel 4 b jumps

/-- The castling block of `Board.move`: relocate the companion rook(s) for
the set castling flag and revoke that castling right. -/
def Board.move_castling (b2 : Board) (mv : Move) (piece : Piece) : Option Board :=
  match mv.castling with
  | none => pure b2
  | some cast => do
    let b2a ←
      if cast.1 then do
        let rook_sq ← b2.get_square
          (pos_stoi (pos_rot90 ⟨2, 5⟩ (revColorIndex piece.color)))
        pure ((b2.update_square ⟨rook_sq.position, none⟩).update_square
          ⟨pos_rot90 ⟨2, 7⟩ (revColorIndex piece.color), rook_sq.piece_at⟩)
      else pure b2
    let b2b ←
      if cast.2 then do
        let rook_sq ← b2a.get_square
          (pos_stoi (pos_rot90 ⟨2, 12⟩ (revColorIndex piece.color)))
        pure ((b2a.update_square ⟨rook_sq.position, none⟩).update_square
          ⟨pos_rot90 ⟨2, 9⟩ (revColorIndex piece.color), rook_sq.piece_at⟩)
      else pure b2a
    let cr ← dget b2b.castling_rights piece.color
    let crNew := if cast.1 then (false, cr.2) else if cast.2 then (cr.1, false) else cr
    pure { b2b with castling_rights := dset b2b.castling_rights piece.color crNew }

/-- Adoption of the validated move's check map: `checked = move.checks or
checked` (a missing or empty map keeps the old dictionary). -/
def Board.move_adopt_checks (b3 : Board) (mv : Move) : Board :=
  { b3 with checked :=
    match mv.checks with
    | some l => if l.isEmpty then b3.checked else l
    | none => b3.checked }

/-- `Board.move(move)`: execute a validated move — capture bookkeeping, piece
relocation, the castling companion rook move and rights flip, adoption of the
move's check map, frozen recomputation, winner detection, history push, and
turn advance. -/
def Board.move (b : Board) (mv : Move) : Option Board := do
  let piece ← mv.from_square.piece_at
  let team := (get_teams piece.color).1
  let enemy_team := (get_teams piece.color).2
  let to_sq ← mv.to_square
  let b1 :=
    match to_sq.piece_at with
    | some p => { b with graveyard := b.graveyard ++ [p] }
    | none => b
  let b2 := b1.place_moved_piece mv to_sq.position
  let b3 ← b2.move_castling mv piece
  let b4 := b3.move_adopt_checks mv
  let b5 ← b4.update_frozen
  let enemyFrozen ← enemy_team.mapM (fun a => dget b5.frozen a)
  let b6 := if enemyFrozen.all id then { b5 with winner := some team } else b5
  let b7 := { b6 with move_stack := b6.move_stack ++ [mv] }
  b7.next_turn 1

/-- The check restoration of `Board.pop`: take the move's recorded check map
when it is a non-empty dictionary, otherwise recompute from the board. -/
def Board.pop_restore_checked (b3 : Board) (mv : Move) : Option Board :=
  match mv.checks with
  | some l =>
    if l.isEmpty then do
      let cc ← b3.check_checks
      pure { b3 with checked := cc }
    else pure { b3 with checked := l }
  | none => do
    let cc ← b3.check_checks
    pure { b3 with checked := cc }

/-- The castling-regrant block of `Board.pop`: move the rook back from its
castling destination to its home square and re-enable the right (the rook
start and end strings of `Board.move` swapped). -/
def Board.pop_castling (b5 : Board) (mv : Move) : Option Board :=
  match mv.castling with
  | none => pure b5
  | some cast => do
    let pcol ← mv.from_square.piece_at.map (·.color)
    let b5a ←
      if cast.1 then do
        let rook_sq ← b5.get_square
          (pos_stoi (pos_rot90 ⟨2, 7⟩ (revColorIndex pcol)))
        pure ((b5.update_square ⟨rook_sq.position, none⟩).update_square
          ⟨pos_rot90 ⟨2, 5⟩ (revColorIndex pcol), rook_sq.piece_at⟩)
      else pure b5
    let b5b ←
      if cast.2 then do
        let rook_sq ← b5a.get_square
          (pos_stoi (pos_rot90 ⟨2, 9⟩ (revColorIndex pcol)))
        pure ((b5a.update_square ⟨rook_sq.position, none⟩).update_square
          ⟨pos_rot90 ⟨2, 12⟩ (revColorIndex pcol), rook_sq.piece_at⟩)
      else pure b5a
    let cr ← dget b5b.castling_rights pcol
    let crNew := if cast.1 then (true, cr.2) else if cast.2 then (cr.1, true) else cr
    pure { b5b with castling_rights := dset b5b.castling_rights pcol crNew }

/-- `Board.pop()`: undo the last move — `(false, unchanged)` when the history
is empty, otherwise restore the endpoint squares, pop the graveyard on a
capture, restore the check dictionary from the move's recorded map
(recomputing when absent), recompute frozen, undo the castling rook move and
regrant the right, and step the turn backwards. -/
def Board.pop (b : Board) : Option (Bool × Board) := do
  match b.move_stack.getLast? with
  | none => some (false, b)
  | some mv => do
    let b1 := { b with move_stack := b.move_stack.dropLast }
    let to_sq ← mv.to_square
    let b2 ←
      if to_sq.piece_at.isSome then
        if b1.graveyard.isEmpty then none
        else pure { b1 with graveyard := b1.graveyard.dropLast }
      else pure b1
    let b3 := (b2.update_square mv.from_square).update_square to_sq
    let b4 ← b3.pop_restore_checked mv
    let b5 ← b4.update_frozen
    let b6 ← b5.pop_castling mv
    let b7 ← b6.next_turn (-1)
    pure (true, b7)

/-- The 256 fresh squares `[Square(a) for a in range(1, 257)]`. -/
def initial_layout0 : List (Option Square) :=
  (List.range 256).map (fun a => some ⟨pos_itos (a + 1), none⟩)

/-- Slice assignment `layout[i : i+n] = [None] * n`. -/
def blankRange (l : List (Option Square)) (i n : Nat) : List (Option Square) :=
  (List.range n).foldl (fun acc j => acc.set (i + j) none) l

/-- The cross-shaped empty board: rows 1, 2, 15, 16 lose columns E–L and rows
5–12 lose columns A, B, O, P. -/
def initial_empty_layout : List (Option Square) :=
  let l1 := [0, 1, 14, 15].foldl (fun acc a => blankRange acc (a * 16 + 4) 8)
    initial_layout0
  (List.range 8).foldl (fun acc k =>
    let a := 4 + k
    blankRange (blankRange acc (a * 16) 2) ((a + 1) * 16 - 2) 2) l1

/-- The canonical back row "rnbqkbnr". -/
def back_row : List PieceType :=
  [.rook, .knight, .bishop, .queen, .king, .bishop, .knight, .rook]

/-- The canonical (unrotated) starting placements of one color: back row on
E3–L3, pawns on E4–L4, and the fortress extras N3 (knight), O1 (bishop),
P4 (rook). -/
def initial_placements : List (Pos × PieceType) :=
  back_row.enum.map (fun ia => ((⟨4 + ia.1, 3⟩ : Pos), ia.2))
    ++ (List.range 8).map (fun i => ((⟨4 + i, 4⟩ : Pos), PieceType.pawn))
    ++ [(⟨13, 3⟩, .knight), (⟨14, 1⟩, .bishop), (⟨15, 4⟩, .rook)]

/-- `Board.__init__`: the freshly constructed board, with the canonical
placements rotated into each color's orientation in the source's order
grey, brown, white, black. -/
def initial_board : Board :=
  let base : Board := {
    turn := .white
    graveyard := []
    castling_rights := COLORS.map (fun c => (c, (true, true)))
    checked := COLORS.map (fun c => (c, false))
    frozen := COLORS.map (fun c => (c, false))
    layout := initial_empty_layout
    winner := none
    move_stack := [] }
  ([(0, .grey), (1, .brown), (2, .white), (3, .black)] :
      List (Nat × Color)).foldl (fun bd nc =>
    initial_placements.foldl (fun bd2 pp =>
      bd2.update_square ⟨pos_rot90 pp.1 nc.1, some ⟨pp.2, nc.2⟩⟩) bd) base

/-! Concrete test states used by the witnesses and counterexamples below.
`mkB` builds a board with the cross-shaped empty layout, a given turn and
frozen dictionary, no history, and all castling rights revoked unless stated
otherwise.  The corner "boxes" are clusters of one king walled in by pawns of
its own color, every one of those pawns being unable to move (its forward
square is occupied or absent and its capture squares hold no enemy). -/

/-- Piece literal shorthand. -/
def pc (t : PieceType) (c : Color) : Piece := ⟨t, c⟩

/-- A layout holding exactly the given pieces on the cross-shaped board. -/
def layoutWith (pieces : List (Pos × Piece)) : List (Option Square) :=
  pieces.foldl (fun acc pp => acc.set (pos_stoi pp.1 - 1) (some ⟨pp.1, some pp.2⟩))
    initial_empty_layout

/-- A test board: given turn, frozen dictionary, castling rights and piece
placement; fresh history, empty graveyard, no winner. -/
def mkB (turn : Color) (fr : List (Color × Bool))
    (cr : List (Color × (Bool × Bool))) (pieces : List (Pos × Piece)) : Board :=
  { turn := turn, graveyard := [], castling_rights := cr,
    checked := COLORS.map (fun c => (c, false)), frozen := fr,
    layout := layoutWith pieces, winner := none, move_stack := [] }

/-- All castling rights revoked. -/
def crNone : List (Color × (Bool × Bool)) := COLORS.map (fun c => (c, (false, false)))

/-- Boxed grey king in the A01 corner. -/
def greyBox : List (Pos × Piece) :=
  [(⟨0, 1⟩, pc .king .grey), (⟨0, 2⟩, pc .pawn .grey), (⟨0, 3⟩, pc .pawn .grey),
   (⟨0, 4⟩, pc .pawn .grey), (⟨1, 1⟩, pc .pawn .grey), (⟨1, 2⟩, pc .pawn .grey),
   (⟨1, 3⟩, pc .pawn .grey), (⟨1, 4⟩, pc .pawn .grey)]

/-- Boxed white king in the A16 corner. -/
def whiteBox : List (Pos × Piece) :=
  [(⟨0, 16⟩, pc .king .white), (⟨0, 15⟩, pc .pawn .white), (⟨0, 14⟩, pc .pawn .white),
   (⟨0, 13⟩, pc .pawn .white), (⟨1, 16⟩, pc .pawn .white), (⟨1, 15⟩, pc .pawn .white),
   (⟨1, 14⟩, pc .pawn .white), (⟨1, 13⟩, pc .pawn .white)]

/-- Boxed black king in the P01 corner. -/
def blackBox : List (Pos × Piece) :=
  [(⟨15, 1⟩, pc .king .black), (⟨14, 1⟩, pc .pawn .black), (⟨14, 2⟩, pc .pawn .black),
   (⟨15, 2⟩, pc .pawn .black)]

/-- Boxed brown king in the P16 corner. -/
def brownBox : List (Pos × Piece) :=
  [(⟨15, 16⟩, pc .king .brown), (⟨14, 16⟩, pc .pawn .brown), (⟨13, 16⟩, pc .pawn .brown),
   (⟨12, 16⟩, pc .pawn .brown), (⟨14, 15⟩, pc .pawn .brown), (⟨13, 15⟩, pc .pawn .brown),
   (⟨12, 15⟩, pc .pawn .brown), (⟨15, 15⟩, pc .pawn .brown)]

/-- Frozen dictionary: white and brown free, grey and black frozen. -/
def frWBfree : List (Color × Bool) :=
  [(.white, false), (.brown, false), (.grey, true), (.black, true)]

/-- The number of pieces of a kind and color on the board. -/
def count_pieces (b : Board) (c : Color) (t : PieceType) : Nat :=
  (b.layout.filterMap id).countP (fun sq => decide (sq.piece_at = some ⟨t, c⟩))

/-- The total number of pieces on the board. -/
def total_pieces (b : Board) : Nat :=
  (b.layout.filterMap id).countP (fun sq => sq.piece_at.isSome)

/-- C2 counterexample: the freshly constructed board gives white three rooks
(the claim says two) and carries 76 pieces in total (the claim says 64); the
corner fortresses add an extra rook, knight and bishop to every color. -/
theorem C2_counterexample :
    count_pieces initial_board .white .rook = 3 ∧ total_pieces initial_board = 76 := by
  decide

/-- C2 amended: a freshly constructed board holds, for each color, exactly
1 king, 1 queen, 3 rooks, 3 bishops, 3 knights and 8 pawns (76 pieces in
total), with every castling right true, no color checked or frozen, and turn
white. -/
theorem C2_amended :
    (∀ c ∈ COLORS,
      count_pieces initial_board c .king = 1 ∧
      count_pieces initial_board c .queen = 1 ∧
      count_pieces initial_board c .rook = 3 ∧
      count_pieces initial_board c .bishop = 3 ∧
      count_pieces initial_board c .knight = 3 ∧
      count_pieces initial_board c .pawn = 8 ∧
      dget initial_board.castling_rights c = some (true, true) ∧
      dget initial_board.checked c = some false ∧
      dget initial_board.frozen c = some false) ∧
    total_pieces initial_board = 76 ∧
    initial_board.turn = .white ∧
    initial_board.winner = none ∧
    initial_board.move_stack = [] := by
  decide

/-- One-step unfolding of the rotation recursion. -/
theorem pos_rot90_succ (p : Pos) (n : Nat) :
    pos_rot90 p (n + 1) = pos_rot90 ⟨16 - p.r, p.c + 1⟩ n := rfl

/-- Rotation counts add up. -/
theorem pos_rot90_add (p : Pos) (m n : Nat) :
    pos_rot90 p (m + n) = pos_rot90 (pos_rot90 p m) n := by
  induction m generalizing p with
  | zero => rw [Nat.zero_add]; rfl
  | succ k ih =>
    rw [show k + 1 + n = (k + n) + 1 by omega, pos_rot90_succ, pos_rot90_succ]
    exact ih ⟨16 - p.r, p.c + 1⟩

/-- One quarter turn keeps a position on the grid. -/
theorem pos_rot90_step_valid (p : Pos) (hp : p.valid) :
    (Pos.mk (16 - p.r) (p.c + 1)).valid := by
  obtain ⟨h1, h2, h3⟩ := hp
  show 16 - p.r ≤ 15 ∧ 1 ≤ p.c + 1 ∧ p.c + 1 ≤ 16
  omega

/-- Any number of quarter turns keeps a position on the grid. -/
theorem pos_rot90_valid (p : Pos) (hp : p.valid) (n : Nat) :
    (pos_rot90 p n).valid := by
  induction n generalizing p with
  | zero => exact hp
  | succ k ih => rw [pos_rot90_succ]; exact ih _ (pos_rot90_step_valid p hp)

/-- Four quarter turns are the identity on valid positions. -/
theorem pos_rot90_four (p : Pos) (hp : p.valid) : pos_rot90 p 4 = p := by
  obtain ⟨c, r⟩ := p
  obtain ⟨h1, h2, h3⟩ := hp
  have h1c : c ≤ 15 := h1
  have h2r : 1 ≤ r := h2
  have h3r : r ≤ 16 := h3
  have hstep : pos_rot90 (⟨c, r⟩ : Pos) 4 =
      ⟨16 - ((16 - (c + 1)) + 1), (16 - ((16 - r) + 1)) + 1⟩ := rfl
  rw [hstep]
  have e1 : 16 - ((16 - (c + 1)) + 1) = c := by omega
  have e2 : (16 - ((16 - r) + 1)) + 1 = r := by omega
  rw [e1, e2]

/-- Rotation counts reduce modulo 4 on valid positions. -/
theorem pos_rot90_mod (p : Pos) (hp : p.valid) : ∀ n : Nat,
    pos_rot90 p n = pos_rot90 p (n % 4) := by
  intro n
  induction n using Nat.strong_induction_on with
  | _ n ih =>
    by_cases h : n < 4
    · rw [Nat.mod_eq_of_lt h]
    · have h4 : n = 4 + (n - 4) := by omega
      rw [h4, pos_rot90_add, pos_rot90_four p hp, ih (n - 4) (by omega)]
      congr 1
      omega

/-- The rotation recursion never returns for a negative count, whatever the
recursion depth. -/
theorem pos_rot90_fuel_neg : ∀ (fuel : Nat) (p : Pos) (t : Int), t < 0 →
    pos_rot90_fuel fuel p t = none := by
  intro fuel
  induction fuel with
  | zero => intro p t _; rfl
  | succ k ih =>
    intro p t ht
    unfold pos_rot90_fuel
    rw [if_neg (by omega)]
    exact ih _ (t - 1) (by omega)

/-- The fueled rotation agrees with the pure one on non-negative counts. -/
theorem pos_rot90_fuel_nat : ∀ (n : Nat) (p : Pos),
    pos_rot90_fuel (n + 1) p (n : Int) = some (pos_rot90 p n) := by
  intro n
  induction n with
  | zero => intro p; rfl
  | succ k ih =>
    intro p
    unfold pos_rot90_fuel
    rw [if_neg (by omega)]
    have e : ((k : Int) + 1) - 1 = (k : Int) := by omega
    rw [show ((k + 1 : Nat) : Int) = (k : Int) + 1 by omega, e, ih, pos_rot90_succ]

/-- C7 counterexample: `Square.pos_rot90` applied to the valid position A01
with `times = -1` does not terminate — the recursion decrements `times`
forever and never reaches its `times == 0` base case (in Python the call
aborts with `RecursionError`), so negative counts are not handled by a
modulo-4 reduction. -/
theorem C7_counterexample : ¬ pos_rot90_terminates ⟨0, 1⟩ (-1) := by
  rintro ⟨fuel, hf⟩
  rw [pos_rot90_fuel_neg fuel ⟨0, 1⟩ (-1) (by omega)] at hf
  cases hf

/-- One quarter turn is injective on rows 1 through 16. -/
theorem pos_rot90_one_inj (pcv prv qcv qrv : Nat) (hpr1 : 1 ≤ prv) (hpr2 : prv ≤ 16)
    (hqr1 : 1 ≤ qrv) (hqr2 : qrv ≤ 16)
    (h : pos_rot90 ⟨pcv, prv⟩ 1 = pos_rot90 ⟨qcv, qrv⟩ 1) :
    (⟨pcv, prv⟩ : Pos) = ⟨qcv, qrv⟩ := by
  have h2 : (⟨16 - prv, pcv + 1⟩ : Pos) = ⟨16 - qrv, qcv + 1⟩ := h
  injection h2 with e1 e2
  simp only [Pos.mk.injEq]
  omega

/-- C7 amended: for every valid position and every non-negative count the
rotation terminates and satisfies `rotate(p, n) = rotate(p, n mod 4)`; in
particular `rotate(p, 4) = p`, and one quarter turn is a bijection on the
set of valid positions.  For negative counts the recursion does not
terminate. -/
theorem C7_amended (p : Pos) (hp : p.valid) (n : Nat) :
    pos_rot90_terminates p (n : Int) ∧
    pos_rot90 p n = pos_rot90 p (n % 4) ∧
    pos_rot90 p 4 = p ∧
    (pos_rot90 p 1).valid ∧
    (∀ q : Pos, q.valid → pos_rot90 p 1 = pos_rot90 q 1 → p = q) ∧
    (∃ q : Pos, q.valid ∧ pos_rot90 q 1 = p) := by
  refine ⟨⟨n + 1, by rw [pos_rot90_fuel_nat]; rfl⟩, pos_rot90_mod p hp n,
    pos_rot90_four p hp, pos_rot90_valid p hp 1, ?_, ?_⟩
  · intro q hq h
    obtain ⟨pcv, prv⟩ := p
    obtain ⟨qcv, qrv⟩ := q
    exact pos_rot90_one_inj pcv prv qcv qrv hp.2.1 hp.2.2 hq.2.1 hq.2.2 h
  · refine ⟨pos_rot90 p 3, pos_rot90_valid p hp 3, ?_⟩
    rw [← pos_rot90_add p 3 1]
    exact pos_rot90_four p hp

/-- C7 amended, witnessed at A01 with count 7. -/
theorem C7_amended_witness :
    pos_rot90_terminates ⟨0, 1⟩ ((7 : Nat) : Int) ∧
    pos_rot90 ⟨0, 1⟩ 7 = pos_rot90 ⟨0, 1⟩ (7 % 4) ∧
    pos_rot90 ⟨0, 1⟩ 4 = ⟨0, 1⟩ ∧
    (pos_rot90 ⟨0, 1⟩ 1).valid ∧
    (∀ q : Pos, q.valid → pos_rot90 ⟨0, 1⟩ 1 = pos_rot90 q 1 → ⟨0, 1⟩ = q) ∧
    (∃ q : Pos, q.valid ∧ pos_rot90 q 1 = ⟨0, 1⟩) :=
  C7_amended ⟨0, 1⟩ (by decide) 7

/-- The coordinate reached after `i` unit steps from `a` toward `b`. -/
def stepToward (a b i : Nat) : Nat := if a ≤ b then a + i else a - i

/-- Ascending `pyRange` with an explicit length. -/
theorem pyRange_asc (a : Int) (n : Nat) :
    pyRange a (a + n) 1 = (List.range n).map (fun (i : Nat) => a + i) := by
  unfold pyRange
  rw [if_pos (by omega)]
  have e : (a + (n : Int) - a).toNat = n := by omega
  rw [e]

/-- Descending `pyRange` with an explicit length. -/
theorem pyRange_desc (a : Int) (n : Nat) :
    pyRange a (a - n) (-1) = (List.range n).map (fun (i : Nat) => a - i) := by
  unfold pyRange
  rw [if_neg (by omega)]
  have e : (a - (a - (n : Int))).toNat = n := by omega
  rw [e]

/-- Ascending `str_range` (stop inclusive) with an explicit length. -/
theorem str_range_asc (a : Int) (n : Nat) :
    str_range a (a + n) 1 = (List.range (n + 1)).map (fun (i : Nat) => a + i) := by
  unfold str_range
  rw [if_pos (by omega)]
  have e : a + (n : Int) + 1 = a + ((n + 1 : Nat) : Int) := by omega
  rw [e, pyRange_asc]

/-- Descending `str_range` (stop inclusive) with an explicit length. -/
theorem str_range_desc (a : Int) (n : Nat) :
    str_range a (a - n) (-1) = (List.range (n + 1)).map (fun (i : Nat) => a - i) := by
  unfold str_range
  rw [if_neg (by omega)]
  have e : a - (n : Int) + -1 = a - ((n + 1 : Nat) : Int) := by omega
  rw [e, pyRange_desc]

/-- The aligned branch of `get_ray`, with the let-bindings spelled out. -/
theorem get_ray_aligned (p1 p2 : Pos)
    (hA : ¬(((p1.c : Int) - p2.c).natAbs ≠ ((p1.r : Int) - p2.r).natAbs)) :
    get_ray p1 p2 = some
      (((str_range ((p1.c : Int) + 65) ((p2.c : Int) + 65)
          (if p1.c + 65 < p2.c + 65 then 1 else -1)).zip
        (pyRange (p1.r : Int) ((p2.r : Int) + (if p1.r < p2.r then 1 else -1))
          (if p1.r < p2.r then 1 else -1))).map
        (fun ab => (⟨(ab.1 - 65).toNat, ab.2.toNat⟩ : Pos))) := by
  unfold get_ray
  rw [if_neg hA]

/-- Entry lookup in a mapped range. -/
theorem range_map_elem {α : Type} (d : Nat) (F : Nat → α) (i : Nat) (hi : i ≤ d) :
    ((List.range (d + 1)).map F)[i]? = some (F i) := by
  rw [List.getElem?_map, List.getElem?_range (show i < d + 1 by omega)]
  rfl

/-- C9: `Square.get_ray(pos1, pos2)` fails (raises `ValueError`) exactly when
the positions do not satisfy `|Δcol| = |Δrow|`; when they lie on a common
diagonal it returns the inclusive ordered list of the `d + 1` positions on
the straight line from `pos1` to `pos2`, the i-th entry lying `i` unit steps
from `pos1` toward `pos2` in each coordinate. -/
theorem C9_get_ray (p1 p2 : Pos) (h1 : p1.valid) (h2 : p2.valid) :
    (get_ray p1 p2 = none ↔
      ((p1.c : Int) - p2.c).natAbs ≠ ((p1.r : Int) - p2.r).natAbs) ∧
    (∀ d : Nat, ((p1.c : Int) - p2.c).natAbs = d →
        ((p1.r : Int) - p2.r).natAbs = d →
      ∃ l, get_ray p1 p2 = some l ∧ l.length = d + 1 ∧
        ∀ i : Nat, i ≤ d →
          l[i]? = some ⟨stepToward p1.c p2.c i, stepToward p1.r p2.r i⟩) := by
  have hb1 : p1.c ≤ 15 := h1.1
  have hb3 : p1.r ≤ 16 := h1.2.2
  have hb4 : p2.c ≤ 15 := h2.1
  have hb6 : p2.r ≤ 16 := h2.2.2
  constructor
  · constructor
    · intro h
      by_contra hne
      unfold get_ray at h
      rw [if_neg (by omega)] at h
      cases h
    · intro hne
      unfold get_ray
      rw [if_pos hne]
  · intro d hcd hrd
    rcases Nat.lt_trichotomy p1.c p2.c with hc | hc | hc
    · rcases Nat.lt_trichotomy p1.r p2.r with hr | hr | hr
      · refine ⟨(List.range (d + 1)).map (fun (i : Nat) => (⟨((p1.c : Int) + 65 + i - 65).toNat, ((p1.r : Int) + i).toNat⟩ : Pos)), ?_, ?_, ?_⟩
        · rw [get_ray_aligned p1 p2 (by omega)]
          rw [if_pos (show p1.c + 65 < p2.c + 65 by omega),
            if_pos (show p1.r < p2.r from hr)]
          rw [show ((p2.c : Int) + 65) = ((p1.c : Int) + 65) + ((d : Nat) : Int) by omega,
            str_range_asc,
            show ((p2.r : Int) + 1) = (p1.r : Int) + ((d + 1 : Nat) : Int) by omega,
            pyRange_asc, List.zip_map', List.map_map]
          rfl
        · simp
        · intro i hi
          rw [range_map_elem d _ i hi]
          unfold stepToward
          rw [if_pos (show p1.c ≤ p2.c by omega), if_pos (show p1.r ≤ p2.r by omega)]
          simp only [Option.some.injEq, Pos.mk.injEq, Function.comp]
          constructor <;> omega
      · exfalso; omega
      · refine ⟨(List.range (d + 1)).map (fun (i : Nat) => (⟨((p1.c : Int) + 65 + i - 65).toNat, ((p1.r : Int) - i).toNat⟩ : Pos)), ?_, ?_, ?_⟩
        · rw [get_ray_aligned p1 p2 (by omega)]
          rw [if_pos (show p1.c + 65 < p2.c + 65 by omega),
            if_neg (show ¬ p1.r < p2.r by omega)]
          rw [show ((p2.c : Int) + 65) = ((p1.c : Int) + 65) + ((d : Nat) : Int) by omega,
            str_range_asc,
            show ((p2.r : Int) + -1) = (p1.r : Int) - ((d + 1 : Nat) : Int) by omega,
            pyRange_desc, List.zip_map', List.map_map]
          rfl
        · simp
        · intro i hi
          rw [range_map_elem d _ i hi]
          unfold stepToward
          rw [if_pos (show p1.c ≤ p2.c by omega), if_neg (show ¬ p1.r ≤ p2.r by omega)]
          simp only [Option.some.injEq, Pos.mk.injEq, Function.comp]
          constructor <;> omega
    · have hd : d = 0 := by omega
      subst hd
      refine ⟨(List.range 1).map (fun (i : Nat) => (⟨((p1.c : Int) + 65 - i - 65).toNat, ((p1.r : Int) - i).toNat⟩ : Pos)), ?_, ?_, ?_⟩
      · rw [get_ray_aligned p1 p2 (by omega)]
        rw [if_neg (show ¬ p1.c + 65 < p2.c + 65 by omega),
          if_neg (show ¬ p1.r < p2.r by omega)]
        rw [show ((p2.c : Int) + 65) = ((p1.c : Int) + 65) - ((0 : Nat) : Int) by omega,
          str_range_desc,
          show ((p2.r : Int) + -1) = (p1.r : Int) - ((0 + 1 : Nat) : Int) by omega,
          pyRange_desc, show (0 : Nat) + 1 = 1 from rfl, List.zip_map', List.map_map]
        rfl
      · simp
      · intro i hi
        rw [range_map_elem 0 _ i hi]
        unfold stepToward
        rw [if_pos (show p1.c ≤ p2.c by omega), if_pos (show p1.r ≤ p2.r by omega)]
        simp only [Option.some.injEq, Pos.mk.injEq, Function.comp]
        constructor <;> omega
    · rcases Nat.lt_trichotomy p1.r p2.r with hr | hr | hr
      · refine ⟨(List.range (d + 1)).map (fun (i : Nat) => (⟨((p1.c : Int) + 65 - i - 65).toNat, ((p1.r : Int) + i).toNat⟩ : Pos)), ?_, ?_, ?_⟩
        · rw [get_ray_aligned p1 p2 (by omega)]
          rw [if_neg (show ¬ p1.c + 65 < p2.c + 65 by omega),
            if_pos (show p1.r < p2.r from hr)]
          rw [show ((p2.c : Int) + 65) = ((p1.c : Int) + 65) - ((d : Nat) : Int) by omega,
            str_range_desc,
            show ((p2.r : Int) + 1) = (p1.r : Int) + ((d + 1 : Nat) : Int) by omega,
            pyRange_asc, List.zip_map', List.map_map]
          rfl
        · simp
        · intro i hi
          rw [range_map_elem d _ i hi]
          unfold stepToward
          rw [if_neg (show ¬ p1.c ≤ p2.c by omega), if_pos (show p1.r ≤ p2.r by omega)]
          simp only [Option.some.injEq, Pos.mk.injEq, Function.comp]
          constructor <;> omega
      · exfalso; omega
      · refine ⟨(List.range (d + 1)).map (fun (i : Nat) => (⟨((p1.c : Int) + 65 - i - 65).toNat, ((p1.r : Int) - i).toNat⟩ : Pos)), ?_, ?_, ?_⟩
        · rw [get_ray_aligned p1 p2 (by omega)]
          rw [if_neg (show ¬ p1.c + 65 < p2.c + 65 by omega),
            if_neg (show ¬ p1.r < p2.r by omega)]
          rw [show ((p2.c : Int) + 65) = ((p1.c : Int) + 65) - ((d : Nat) : Int) by omega,
            str_range_desc,
            show ((p2.r : Int) + -1) = (p1.r : Int) - ((d + 1 : Nat) : Int) by omega,
            pyRange_desc, List.zip_map', List.map_map]
          rfl


        · simp
        · intro i hi
          rw [range_map_elem d _ i hi]
          unfold stepToward
          rw [if_neg (show ¬ p1.c ≤ p2.c by omega), if_neg (show ¬ p1.r ≤ p2.r by omega)]
          simp only [Option.some.injEq, Pos.mk.injEq, Function.comp]
          constructor <;> omega

/-- C9, witnessed at the docstring example A04 to D07. -/
theorem C9_get_ray_witness :
    ((get_ray ⟨0, 4⟩ ⟨3, 7⟩ = none ↔
      (((0 : Nat) : Int) - (3 : Nat)).natAbs ≠ (((4 : Nat) : Int) - (7 : Nat)).natAbs) ∧
    (∀ d : Nat, (((0 : Nat) : Int) - (3 : Nat)).natAbs = d →
        (((4 : Nat) : Int) - (7 : Nat)).natAbs = d →
      ∃ l, get_ray ⟨0, 4⟩ ⟨3, 7⟩ = some l ∧ l.length = d + 1 ∧
        ∀ i : Nat, i ≤ d →
          l[i]? = some ⟨stepToward 0 3 i, stepToward 4 7 i⟩)) :=
  C9_get_ray ⟨0, 4⟩ ⟨3, 7⟩ (by decide) (by decide)

/-- Bind-inversion for the `Option` monad. -/
theorem optBind_eq_some {α β : Type} (x : Option α) (f : α → Option β) (y : β) :
    (x >>= f) = some y ↔ ∃ a, x = some a ∧ f a = some y := by
  cases x <;> simp

/-- Restoring the saved layout after the two scratch `update_square` calls
gives back the original board. -/
theorem restore_layout (b : Board) (mv : Move) (pos : Pos) :
    { b.place_moved_piece mv pos with layout := b.layout } = b := rfl

/-- The check-simulation loop restores the board it was given: every exit
path puts the saved layout back. -/
theorem sim_check_loop_frame :
    ∀ (ps : List Pos) (b : Board) (own tm : Color) (ic : Bool) (mv : Move)
      (r : ValidRes) (b2 : Board),
      b.sim_check_loop own tm ic mv ps = some (r, b2) → b2 = b := by
  intro ps
  induction ps with
  | nil =>
    intro b own tm ic mv r b2 h
    unfold Board.sim_check_loop at h
    simp only [Option.some.injEq, Prod.mk.injEq] at h
    exact h.2.symm
  | cons pos rest ih =>
    intro b own tm ic mv r b2 h
    unfold Board.sim_check_loop at h
    rw [optBind_eq_some] at h
    obtain ⟨sq, hsq, h⟩ := h
    rw [optBind_eq_some] at h
    obtain ⟨kings, hk, h⟩ := h
    rw [optBind_eq_some] at h
    obtain ⟨checks, hc, h⟩ := h
    dsimp only at h
    split at h
    · simp only [Option.some.injEq, Prod.mk.injEq] at h
      rw [← h.2, restore_layout]
    · split at h
      · simp only [Option.some.injEq, Prod.mk.injEq] at h
        rw [← h.2, restore_layout]
      · have hr := ih _ own tm ic _ r b2 h
        rw [hr, restore_layout]

set_option maxHeartbeats 2000000 in
/-- `Board.is_valid` restores the board it was given on every path (the
fortress-wall and promotion rejections never mutate, and the check
simulation puts the saved layout back). -/
theorem is_valid_frame (b : Board) (mv : Move) (it ic : Bool) (r : ValidRes)
    (b2 : Board) (h : b.is_valid mv it ic = some (r, b2)) : b2 = b := by
  unfold Board.is_valid at h
  split at h
  · exact (congrArg Prod.snd (Option.some.inj h)).symm
  · rename_i to_sq hts
    split at h
    · exact (congrArg Prod.snd (Option.some.inj h)).symm
    · rename_i piece hp
      by_cases c1 : (¬it = true ∧ piece.color ≠ b.turn)
      · rw [if_pos c1] at h
        exact (congrArg Prod.snd (Option.some.inj h)).symm
      · rw [if_neg c1] at h
        by_cases c2 : mv.from_square = to_sq
        · rw [if_pos c2] at h
          exact (congrArg Prod.snd (Option.some.inj h)).symm
        · rw [if_neg c2] at h
          dsimp only at h
          by_cases c3 : (match to_sq.piece_at with
            | some p => decide (p.color ∈ (get_teams piece.color).1)
            | none => false) = true
          · rw [if_pos c3] at h
            exact (congrArg Prod.snd (Option.some.inj h)).symm
          · rw [if_neg c3] at h
            by_cases cR : list_in_list [mv.from_square.position, to_sq.position]
                fortress_region false = true
            · rw [if_pos cR] at h
              by_cases cK : (knightWallHit mv.from_square.position to_sq.position
                  || rookWallHit mv.from_square.position to_sq.position) = true
              · rw [if_pos cK] at h
                simp only [pure_bind] at h
                rw [if_pos trivial] at h
                exact (congrArg Prod.snd (Option.some.inj h)).symm
              · rw [if_neg cK] at h
                rw [optBind_eq_some] at h
                obtain ⟨w, hw, h⟩ := h
                by_cases c4 : w = true
                · rw [if_pos c4] at h
                  exact (congrArg Prod.snd (Option.some.inj h)).symm
                · rw [if_neg c4] at h
                  by_cases c5 : (mv.promotion.isSome = true ∧ piece.type ≠ PieceType.pawn)
                  · rw [if_pos c5] at h
                    exact (congrArg Prod.snd (Option.some.inj h)).symm
                  · rw [if_neg c5] at h
                    by_cases c6 : (mv.promotion.isSome = true ∧
                        to_sq.position ∉ get_pawn_promotion_rank piece.color)
                    · rw [if_pos c6] at h
                      exact (congrArg Prod.snd (Option.some.inj h)).symm
                    · rw [if_neg c6] at h
                      by_cases c7 : (match to_sq.piece_at with
                        | some p => decide (p.color ∈ b.currently_frozen)
                        | none => false) = true
                      · rw [if_pos c7] at h
                        exact (congrArg Prod.snd (Option.some.inj h)).symm
                      · rw [if_neg c7] at h
                        rw [optBind_eq_some] at h
                        obtain ⟨pm, hpm, h⟩ := h
                        by_cases c8 : to_sq ∉ pm
                        · rw [if_pos c8] at h
                          exact (congrArg Prod.snd (Option.some.inj h)).symm
                        · rw [if_neg c8] at h
                          by_cases cS : mv.from_square = ⟨pos_rot90 ⟨2, 8⟩ (revColorIndex piece.color),
                              some ⟨PieceType.king, piece.color⟩⟩
                          rotate_left
                          · rw [if_neg cS, if_neg (by simp)] at h
                            simp only [pure_bind] at h
                            exact sim_check_loop_frame _ b _ _ ic _ r b2 h
                          · rw [if_pos cS] at h
                            by_cases c6a : to_sq.position = pos_rot90 ⟨2, 6⟩ (revColorIndex piece.color)
                            · rw [if_pos c6a, if_pos rfl] at h
                              rw [optBind_eq_some] at h
                              obtain ⟨cp, hcp, h⟩ := h
                              exact sim_check_loop_frame _ b _ _ ic _ r b2 h
                            · rw [if_neg c6a] at h
                              by_cases c10a : to_sq.position = pos_rot90 ⟨2, 10⟩ (revColorIndex piece.color)
                              · rw [if_pos c10a, if_pos rfl] at h
                                rw [optBind_eq_some] at h
                                obtain ⟨cp, hcp, h⟩ := h
                                exact sim_check_loop_frame _ b _ _ ic _ r b2 h
                              · rw [if_neg c10a, if_neg (by simp)] at h
                                simp only [pure_bind] at h
                                exact sim_check_loop_frame _ b _ _ ic _ r b2 h
            · rw [if_neg cR] at h
              simp only [pure_bind] at h
              rw [if_neg (by simp)] at h
              by_cases c5 : (mv.promotion.isSome = true ∧ piece.type ≠ PieceType.pawn)
              · rw [if_pos c5] at h
                exact (congrArg Prod.snd (Option.some.inj h)).symm
              · rw [if_neg c5] at h
                by_cases c6 : (mv.promotion.isSome = true ∧
                    to_sq.position ∉ get_pawn_promotion_rank piece.color)
                · rw [if_pos c6] at h
                  exact (congrArg Prod.snd (Option.some.inj h)).symm
                · rw [if_neg c6] at h
                  by_cases c7 : (match to_sq.piece_at with
                    | some p => decide (p.color ∈ b.currently_frozen)
                    | none => false) = true
                  · rw [if_pos c7] at h
                    exact (congrArg Prod.snd (Option.some.inj h)).symm
                  · rw [if_neg c7] at h
                    rw [optBind_eq_some] at h
                    obtain ⟨pm, hpm, h⟩ := h
                    by_cases c8 : to_sq ∉ pm
                    · rw [if_pos c8] at h
                      exact (congrArg Prod.snd (Option.some.inj h)).symm
                    · rw [if_neg c8] at h
                      by_cases cS : mv.from_square = ⟨pos_rot90 ⟨2, 8⟩ (revColorIndex piece.color),
                          some ⟨PieceType.king, piece.color⟩⟩
                      rotate_left
                      · rw [if_neg cS, if_neg (by simp)] at h
                        simp only [pure_bind] at h
                        exact sim_check_loop_frame _ b _ _ ic _ r b2 h
                      · rw [if_pos cS] at h
                        by_cases c6a : to_sq.position = pos_rot90 ⟨2, 6⟩ (revColorIndex piece.color)
                        · rw [if_pos c6a, if_pos rfl] at h
                          rw [optBind_eq_some] at h
                          obtain ⟨cp, hcp, h⟩ := h
                          exact sim_check_loop_frame _ b _ _ ic _ r b2 h
                        · rw [if_neg c6a] at h
                          by_cases c10a : to_sq.position = pos_rot90 ⟨2, 10⟩ (revColorIndex piece.color)
                          · rw [if_pos c10a, if_pos rfl] at h
                            rw [optBind_eq_some] at h
                            obtain ⟨cp, hcp, h⟩ := h
                            exact sim_check_loop_frame _ b _ _ ic _ r b2 h
                          · rw [if_neg c10a, if_neg (by simp)] at h
                            simp only [pure_bind] at h
                            exact sim_check_loop_frame _ b _ _ ic _ r b2 h

/-- A monadic fold whose step preserves the board component preserves it
globally. -/
theorem foldlM_board_frame {α σ : Type}
    (f : (σ × Board) → α → Option (σ × Board))
    (hf : ∀ s bb x r, f (s, bb) x = some r → r.2 = bb) :
    ∀ (l : List α) (s : σ) (bb : Board) (r : σ × Board),
      l.foldlM f (s, bb) = some r → r.2 = bb := by
  intro l
  induction l with
  | nil =>
    intro s bb r h
    rw [List.foldlM_nil] at h
    cases h
    rfl
  | cons x xs ih =>
    intro s bb r h
    rw [List.foldlM_cons, optBind_eq_some] at h
    obtain ⟨st1, h1, h2⟩ := h
    obtain ⟨s1, bb1⟩ := st1
    have e1 : bb1 = bb := hf s bb x (s1, bb1) h1
    subst e1
    exact ih s1 bb1 r h2

/-- `Move.possible_legal_moves_color` hands back the board it was given:
every validation inside restores the board. -/
theorem plmc_frame (b : Board) (c : Color) (res : List Move × Board)
    (h : Move.possible_legal_moves_color b c = some res) : res.2 = b := by
  unfold Move.possible_legal_moves_color at h
  dsimp only at h
  split at h
  · cases h
  · refine foldlM_board_frame _ ?_ _ [] b res h
    intro s bb sq r hstep
    rw [optBind_eq_some] at hstep
    obtain ⟨pms, hpms, hstep⟩ := hstep
    refine foldlM_board_frame _ ?_ _ s bb r hstep
    intro s2 bb2 psq r2 hstep2
    refine foldlM_board_frame _ ?_ _ s2 bb2 r2 hstep2
    intro s3 bb3 cflag r3 hstep3
    rw [optBind_eq_some] at hstep3
    obtain ⟨rb, hrb, hstep3⟩ := hstep3
    have hb2 : rb.2 = bb3 := is_valid_frame bb3 _ true true rb.1 rb.2 (by
      rw [← hrb])
    split at hstep3 <;> (cases hstep3; exact hb2)

/-- `Board.is_mate` hands back the board it was given. -/
theorem is_mate_frame (b : Board) (c : Color) (r : Nat × Board)
    (h : b.is_mate c = some r) : r.2 = b := by
  unfold Board.is_mate at h
  rw [optBind_eq_some] at h
  obtain ⟨pmb, h1, h2⟩ := h
  have e := plmc_frame b c pmb h1
  split at h2
  · cases h2; exact e
  · rw [optBind_eq_some] at h2
    obtain ⟨ch, h3, h4⟩ := h2
    split at h4 <;> (cases h4; exact e)

/-- `Board.update_frozen` only replaces the frozen dictionary. -/
theorem update_frozen_shape (b b5 : Board) (h : b.update_frozen = some b5) :
    b5 = { b with frozen := b5.frozen } := by
  unfold Board.update_frozen at h
  rw [optBind_eq_some] at h
  obtain ⟨st, h1, h2⟩ := h
  obtain ⟨s1, b1⟩ := st
  have e : b1 = b := by
    refine foldlM_board_frame _ ?_ _ [] b (s1, b1) h1
    intro s bb kv r hstep
    rw [optBind_eq_some] at hstep
    obtain ⟨imb, hi, hstep⟩ := hstep
    cases hstep
    exact is_mate_frame bb kv.1 imb hi
  subst e
  cases h2
  rfl

/-- `Board.next_turn` only changes whose turn it is. -/
theorem nextTurnFuel_shape : ∀ (fuel : Nat) (b : Board) (j : Int) (b2 : Board),
    nextTurnFuel fuel b j = some b2 → b2 = { b with turn := b2.turn } := by
  intro fuel
  induction fuel with
  | zero => intro b j b2 h; cases h
  | succ k ih =>
    intro b j b2 h
    unfold nextTurnFuel at h
    dsimp only at h
    split at h
    · cases h
    · exact ih { b with turn := colorAt (((colorIndex b.turn : Int) + j) % 4).toNat } j b2 h
    · cases h; rfl

/-- C5: `Board.is_valid` leaves every field of the board equal to its value
before the call, for every move and every combination of the ignore flags:
the temporary simulation mutation is fully rolled back. -/
theorem C5_is_valid_no_mutation (b : Board) (mv : Move)
    (ignore_turn ignore_check : Bool) (r : ValidRes) (b2 : Board)
    (h : b.is_valid mv ignore_turn ignore_check = some (r, b2)) :
    b2.layout = b.layout ∧ b2.turn = b.turn ∧ b2.checked = b.checked ∧
    b2.frozen = b.frozen ∧ b2.graveyard = b.graveyard ∧
    b2.castling_rights = b.castling_rights ∧ b2.move_stack = b.move_stack ∧
    b2.winner = b.winner := by
  have e := is_valid_frame b mv ignore_turn ignore_check r b2 h
  subst e
  exact ⟨rfl, rfl, rfl, rfl, rfl, rfl, rfl, rfl⟩

/-- All four colors unfrozen. -/
def frAllFree : List (Color × Bool) := COLORS.map (fun c => (c, false))

/-- A bare board with no pieces at all. -/
def bEmpty : Board := mkB .white frAllFree crNone []

/-- A knight move from F03 to D02 on the bare board. -/
def mjunk : Move :=
  ⟨⟨⟨5, 3⟩, some (pc .knight .white)⟩, some ⟨⟨3, 2⟩, none⟩, none, none, none⟩

/-- C5 witnessed on a concrete call (a wall-rejected knight move). -/
theorem C5_is_valid_no_mutation_witness :
    bEmpty.is_valid mjunk false false =
      some (.no .WallsInTheWay mjunk, bEmpty) ∧
    bEmpty.layout = bEmpty.layout ∧ bEmpty.turn = bEmpty.turn ∧
    bEmpty.checked = bEmpty.checked ∧ bEmpty.frozen = bEmpty.frozen ∧
    bEmpty.graveyard = bEmpty.graveyard ∧
    bEmpty.castling_rights = bEmpty.castling_rights ∧
    bEmpty.move_stack = bEmpty.move_stack ∧
    bEmpty.winner = bEmpty.winner := by
  have h : bEmpty.is_valid mjunk false false =
      some (.no .WallsInTheWay mjunk, bEmpty) := by decide
  exact ⟨h, C5_is_valid_no_mutation bEmpty mjunk false false _ _ h⟩

/-- The check restoration of `Board.pop` only replaces the checked
dictionary. -/
theorem pop_restore_checked_shape (b3 b4 : Board) (mv : Move)
    (h : b3.pop_restore_checked mv = some b4) :
    b4 = { b3 with checked := b4.checked } := by
  unfold Board.pop_restore_checked at h
  split at h
  · split at h
    · rw [optBind_eq_some] at h
      obtain ⟨cc, hc, h⟩ := h
      cases h; rfl
    · cases h; rfl
  · rw [optBind_eq_some] at h
    obtain ⟨cc, hc, h⟩ := h
    cases h; rfl

/-- The castling-regrant block of `Board.pop` only touches the layout and the
castling-rights dictionary. -/
theorem pop_castling_shape (b5 b6 : Board) (mv : Move)
    (h : b5.pop_castling mv = some b6) :
    b6 = { b5 with layout := b6.layout,
                   castling_rights := b6.castling_rights } := by
  unfold Board.pop_castling at h
  split at h
  · cases h; rfl
  · rename_i cast hcast
    rw [optBind_eq_some] at h
    obtain ⟨pcol, hp, h⟩ := h
    by_cases c1 : cast.1 = true
    · rw [if_pos c1] at h
      rw [optBind_eq_some] at h
      obtain ⟨rk, hrk, h⟩ := h
      rw [optBind_eq_some] at h
      obtain ⟨y1, hy1, h⟩ := h
      cases hy1
      dsimp only at h
      by_cases c2 : cast.2 = true
      · rw [if_pos c2] at h
        rw [optBind_eq_some] at h
        obtain ⟨rk2, hrk2, h⟩ := h
        rw [optBind_eq_some] at h
        obtain ⟨y2, hy2, h⟩ := h
        cases hy2
        try dsimp only at h
        rw [optBind_eq_some] at h
        obtain ⟨cr, hcr, h⟩ := h
        cases h
        rfl
      · rw [if_neg c2] at h
        rw [optBind_eq_some] at h
        obtain ⟨y2, hy2, h⟩ := h
        cases hy2
        try dsimp only at h
        rw [optBind_eq_some] at h
        obtain ⟨cr, hcr, h⟩ := h
        cases h
        rfl
    · rw [if_neg c1] at h
      rw [optBind_eq_some] at h
      obtain ⟨y1, hy1, h⟩ := h
      cases hy1
      dsimp only at h
      by_cases c2 : cast.2 = true
      · rw [if_pos c2] at h
        rw [optBind_eq_some] at h
        obtain ⟨rk2, hrk2, h⟩ := h
        rw [optBind_eq_some] at h
        obtain ⟨y2, hy2, h⟩ := h
        cases hy2
        try dsimp only at h
        rw [optBind_eq_some] at h
        obtain ⟨cr, hcr, h⟩ := h
        cases h
        rfl
      · rw [if_neg c2] at h
        rw [optBind_eq_some] at h
        obtain ⟨y2, hy2, h⟩ := h
        cases hy2
        try dsimp only at h
        rw [optBind_eq_some] at h
        obtain ⟨cr, hcr, h⟩ := h
        cases h
        rfl

/-- C10: `Board.pop` never modifies the winner field — after any successful
undo the winner is exactly what it was before, so undoing the move that
declared a winner leaves the winner still set. -/
theorem C10_pop_preserves_winner (b : Board) (flag : Bool) (b2 : Board)
    (h : b.pop = some (flag, b2)) : b2.winner = b.winner := by
  unfold Board.pop at h
  split at h
  · cases h; rfl
  · rename_i mv hlast
    rw [optBind_eq_some] at h
    obtain ⟨to_sq, hts, h⟩ := h
    have tail : ∀ bx : Board, bx.winner = b.winner →
        (do
          let b4 ← ((bx.update_square mv.from_square).update_square
            to_sq).pop_restore_checked mv
          let b5 ← b4.update_frozen
          let b6 ← b5.pop_castling mv
          let b7 ← b6.next_turn (-1)
          pure (true, b7) : Option (Bool × Board)) = some (flag, b2) →
        b2.winner = b.winner := by
      intro bx hbw hh
      rw [optBind_eq_some] at hh
      obtain ⟨b4, h4, hh⟩ := hh
      rw [optBind_eq_some] at hh
      obtain ⟨b5, h5, hh⟩ := hh
      rw [optBind_eq_some] at hh
      obtain ⟨b6, h6, hh⟩ := hh
      rw [optBind_eq_some] at hh
      obtain ⟨b7, h7, hh⟩ := hh
      cases hh
      have e4 := pop_restore_checked_shape _ b4 mv h4
      have e5 := update_frozen_shape _ b5 h5
      have e6 := pop_castling_shape _ b6 mv h6
      have e7 := nextTurnFuel_shape 4 _ (-1) b2 h7
      have w7 : b2.winner = b6.winner := by rw [e7]
      have w6 : b6.winner = b5.winner := by rw [e6]
      have w5 : b5.winner = b4.winner := by rw [e5]
      have w4 : b4.winner = bx.winner := by rw [e4]; rfl
      exact w7.trans (w6.trans (w5.trans (w4.trans hbw)))
    by_cases cg : to_sq.piece_at.isSome = true
    · rw [if_pos cg] at h
      by_cases ce : ({ b with move_stack := b.move_stack.dropLast } :
          Board).graveyard.isEmpty = true
      · rw [if_pos ce] at h
        rw [optBind_eq_some] at h
        obtain ⟨y, hy, h⟩ := h
        cases hy
      · rw [if_neg ce] at h
        rw [optBind_eq_some] at h
        obtain ⟨y, hy, h⟩ := h
        cases hy
        dsimp only at h
        exact tail { b with graveyard := b.graveyard.dropLast, move_stack := b.move_stack.dropLast } rfl h
    · rw [if_neg cg] at h
      rw [optBind_eq_some] at h
      obtain ⟨y, hy, h⟩ := h
      cases hy
      dsimp only at h
      exact tail { b with move_stack := b.move_stack.dropLast } rfl h

/-- A recorded white pawn move E09–E08 with an all-clear check map. -/
def mW10 : Move :=
  ⟨⟨⟨4, 9⟩, some (pc .pawn .white)⟩, some ⟨⟨4, 8⟩, none⟩, none, none,
    some [(.white, false), (.brown, false), (.grey, false), (.black, false)]⟩

/-- A board one ply after `mW10`: the pawn sits on E08 and the move is on the
history stack. -/
def bW10 : Board :=
  { mkB .brown frWBfree crNone
      (greyBox ++ whiteBox ++ blackBox ++ brownBox ++ [(⟨4, 8⟩, pc .pawn .white)])
    with move_stack := [mW10] }

/-- The board `Board.pop` returns on `bW10`. -/
def bW10res : Board := ((bW10.pop).getD (false, bW10)).2

/-- C10 witnessed on a concrete successful pop. -/
theorem C10_pop_preserves_winner_witness :
    bW10.pop = some (true, bW10res) ∧ bW10res.winner = bW10.winner := by
  have h : bW10.pop = some (true, bW10res) := by decide
  exact ⟨h, C10_pop_preserves_winner bW10 true bW10res h⟩

/-- The move F03–D02 rotated `k` quarter-turns, carrying piece `p` on its
source square and an empty destination square. -/
def C8move (p : Piece) (k : Nat) : Move :=
  ⟨⟨pos_rot90 ⟨5, 3⟩ k, some p⟩, some ⟨pos_rot90 ⟨3, 2⟩ k, none⟩, none, none, none⟩

/-- C8: the move F03–D02 and each of its 3 rotations is rejected by
`Board.is_valid` with the walls-in-the-way reason on every board, for every
piece on the source square and both check flags, whenever the turn gate is
passed (the mover's color has the turn or `ignore_turn` is set). -/
theorem C8_fortress_wall (b : Board) (p : Piece) (k : Fin 4) (it ic : Bool)
    (h : it = true ∨ p.color = b.turn) :
    b.is_valid (C8move p k) it ic =
      some (.no .WallsInTheWay (C8move p k), b) := by
  have hturn : ¬(¬it = true ∧ p.color ≠ b.turn) := by
    rcases h with h | h
    · subst h; simp
    · intro hc; exact hc.2 h
  fin_cases k <;>
  · unfold Board.is_valid C8move
    dsimp only
    rw [if_neg hturn]
    rw [if_neg (by simp)]
    rfl

/-- C8 witnessed on a concrete call: a white knight on F03 aiming at D02 on
the bare board, with white to move. -/
theorem C8_fortress_wall_witness :
    bEmpty.is_valid (C8move (pc .knight .white) 0) false false =
      some (.no .WallsInTheWay (C8move (pc .knight .white) 0), bEmpty) :=
  C8_fortress_wall bEmpty (pc .knight .white) 0 false false (Or.inr rfl)

/-- Frozen dictionary: only black free. -/
def frBlackOnly : List (Color × Bool) :=
  [(.white, true), (.brown, true), (.grey, true), (.black, false)]

/-- Boxed kings plus a lone movable black pawn on O03; black to move, the
other three colors frozen. -/
def C6pre : Board :=
  mkB .black frBlackOnly crNone
    (greyBox ++ whiteBox ++ blackBox ++ brownBox ++ [(⟨14, 3⟩, pc .pawn .black)])

/-- The pawn push O03–P03 that leaves every color stuck. -/
def mC6 : Move :=
  ⟨⟨⟨14, 3⟩, some (pc .pawn .black)⟩, some ⟨⟨15, 3⟩, none⟩, none, none, none⟩

/-- `mC6` as validated by `is_valid`: the all-clear check map recorded. -/
def mC6chk : Move :=
  { mC6 with
    checks := some [(.white, false), (.brown, false), (.grey, false), (.black, false)] }

/-- The state `Board.move C6pre mC6chk` reaches just before its final
`next_turn` call: the prefix of `Board.move` replayed literally. -/
def C6postOpt : Option Board := do
  let piece ← mC6chk.from_square.piece_at
  let to_sq ← mC6chk.to_square
  let b1 :=
    match to_sq.piece_at with
    | some p => { C6pre with graveyard := C6pre.graveyard ++ [p] }
    | none => C6pre
  let b2 := b1.place_moved_piece mC6chk to_sq.position
  let b3 ← b2.move_castling mC6chk piece
  let b4 := b3.move_adopt_checks mC6chk
  let b5 ← b4.update_frozen
  let enemyFrozen ← (get_teams piece.color).2.mapM (fun a => dget b5.frozen a)
  let b6 := if enemyFrozen.all id then
    { b5 with winner := some (get_teams piece.color).1 } else b5
  pure { b6 with move_stack := b6.move_stack ++ [mC6chk] }

/-- The pre-`next_turn` state itself. -/
def C6post : Board := C6postOpt.getD C6pre

/-- Boxed kings plus a black pawn on K08 with room to advance; black to
move. -/
def C6succ : Board :=
  mkB .black frWBfree crNone
    (greyBox ++ whiteBox ++ blackBox ++ brownBox ++ [(⟨10, 8⟩, pc .pawn .black)])

/-- The pawn push K08–L08 with its recorded all-clear check map. -/
def mC6succ : Move :=
  ⟨⟨⟨10, 8⟩, some (pc .pawn .black)⟩, some ⟨⟨11, 8⟩, none⟩, none, none,
    some [(.white, false), (.brown, false), (.grey, false), (.black, false)]⟩

/-- The board `Board.move` returns on `C6succ`. -/
def C6succPost : Board := (C6succ.move mC6succ).getD C6succ

/-- An empty board with every color frozen. -/
def frAllTrue : List (Color × Bool) := COLORS.map (fun c => (c, true))

/-- A bare all-frozen board. -/
def bAllFrozen : Board := mkB .white frAllTrue crNone []

/-- With every color frozen, `next_turn` recurses forever: no recursion depth
makes it return. -/
theorem nextTurnFuel_allFrozen (j : Int) :
    ∀ (fuel : Nat) (s : Board), (∀ c, dget s.frozen c = some true) →
      nextTurnFuel fuel s j = none := by
  intro fuel
  induction fuel with
  | zero => intro s h; rfl
  | succ n ih =>
    intro s h
    unfold nextTurnFuel
    dsimp only
    rw [h (colorAt ((((colorIndex s.turn : Int) + j) % 4).toNat))]
    exact ih _ (fun c => h c)

/-- Whenever `next_turn` returns within some depth, the color it hands the
turn to is not frozen. -/
theorem nextTurnFuel_unfrozen :
    ∀ (fuel : Nat) (s : Board) (j : Int) (s' : Board),
      nextTurnFuel fuel s j = some s' → dget s'.frozen s'.turn = some false := by
  intro fuel
  induction fuel with
  | zero => intro s j s' h; exact absurd h (by simp [nextTurnFuel])
  | succ n ih =>
    intro s j s' h
    unfold nextTurnFuel at h
    dsimp only at h
    split at h
    · exact absurd h (by simp)
    · exact ih _ _ _ h
    · rename_i hq
      cases h
      exact hq

/-- A successful `Board.move` always hands the turn to an unfrozen color. -/
theorem move_turn_unfrozen (b : Board) (mv : Move) (b' : Board)
    (h : b.move mv = some b') : dget b'.frozen b'.turn = some false := by
  unfold Board.move at h
  rw [optBind_eq_some] at h
  obtain ⟨piece, _, h⟩ := h
  try dsimp only at h
  rw [optBind_eq_some] at h
  obtain ⟨to_sq, _, h⟩ := h
  try dsimp only at h
  rw [optBind_eq_some] at h
  obtain ⟨b3, _, h⟩ := h
  try dsimp only at h
  rw [optBind_eq_some] at h
  obtain ⟨b5, _, h⟩ := h
  try dsimp only at h
  rw [optBind_eq_some] at h
  obtain ⟨ef, _, h⟩ := h
  try dsimp only at h
  exact nextTurnFuel_unfrozen 4 _ 1 b' h

/-- C6 (amended): every successful `Board.move` leaves the turn on a color
whose frozen flag is false (so a frozen color never receives the turn); but
when all four colors are frozen the turn advance does not terminate at all —
`next_turn` returns within no recursion depth, instead of leaving the turn
in place as a terminal state. -/
theorem C6_amended :
    (∀ (b : Board) (mv : Move) (b' : Board),
        b.move mv = some b' → dget b'.frozen b'.turn = some false) ∧
    (∀ (s : Board) (j : Int), (∀ c, dget s.frozen c = some true) →
        ¬ s.next_turn_terminates j) := by
  refine ⟨move_turn_unfrozen, ?_⟩
  intro s j hall
  rintro ⟨fuel, hf⟩
  rw [nextTurnFuel_allFrozen j fuel s hall] at hf
  simp at hf

set_option maxRecDepth 1000000 in
/-- C6 witnessed: a concrete successful move that leaves the turn on the
unfrozen mover, and the bare all-frozen board on which the turn advance
diverges. -/
theorem C6_amended_witness :
    dget C6succPost.frozen C6succPost.turn = some false ∧
    ¬ bAllFrozen.next_turn_terminates 1 :=
  ⟨C6_amended.1 C6succ mC6succ C6succPost (by decide),
   C6_amended.2 bAllFrozen 1 (fun c => by cases c <;> rfl)⟩

set_option maxRecDepth 1000000 in
/-- C6 counterexample to the terminal-state sentence: the pawn push O03–P03
validates, leaves every color frozen in the recomputed dictionary, and
`Board.move` then fails to terminate (its final `next_turn` call returns
within no recursion depth), rather than ending in a terminal state with the
turn unadvanced. -/
theorem C6_counterexample :
    C6pre.is_valid mC6 false false = some (.yes mC6chk, C6pre) ∧
    C6postOpt = some C6post ∧
    (∀ c, dget C6post.frozen c = some true) ∧
    ¬ C6post.next_turn_terminates 1 ∧
    C6pre.move mC6chk = none := by
  have hfz : C6post.frozen =
      [(.white, true), (.brown, true), (.grey, true), (.black, true)] := by decide
  have hall : ∀ c, dget C6post.frozen c = some true := fun c => by
    rw [hfz]; cases c <;> rfl
  refine ⟨by decide, by decide, hall, ?_, by decide⟩
  rintro ⟨fuel, hf⟩
  rw [nextTurnFuel_allFrozen 1 fuel C6post hall] at hf
  simp at hf

/-- Castling rights: white may castle short only. -/
def crWOnly : List (Color × (Bool × Bool)) :=
  [(.white, (true, false)), (.brown, (false, false)),
   (.grey, (false, false)), (.black, (false, false))]

/-- White king on its start square H14 with its companion rook on E14 and the
other three kings parked in far corners; white to move. -/
def C4pre : Board :=
  mkB .white (COLORS.map (fun c => (c, false))) crWOnly
    [(⟨7, 14⟩, pc .king .white), (⟨4, 14⟩, pc .rook .white),
     (⟨0, 1⟩, pc .king .grey), (⟨15, 1⟩, pc .king .black), (⟨15, 16⟩, pc .king .brown)]

/-- The white king's two-step castling move H14–F14. -/
def mC4 : Move :=
  ⟨⟨⟨7, 14⟩, some (pc .king .white)⟩, some ⟨⟨5, 14⟩, none⟩, none, none, none⟩

/-- `mC4` as validated: recognized as a castling move, all-clear check map. -/
def mC4chk : Move :=
  { mC4 with
    castling := some (true, false),
    checks := some [(.white, false), (.brown, false), (.grey, false), (.black, false)] }

/-- C4 amended helper and theorem: the scratch layout of the check simulation
is built by `place_moved_piece` alone, which changes exactly the source slot
(emptied) and the inspected destination slot (the moved or promoted piece) of
the layout; every other slot — in particular the companion rook's — is left
as it was, so the rook is never moved onto the scratch copy. -/
theorem C4_amended (b : Board) (mv : Move) (pos : Pos) :
    (b.place_moved_piece mv pos).layout =
      (b.layout.set (pos_stoi mv.from_square.position - 1)
          (some ⟨mv.from_square.position, none⟩)).set (pos_stoi pos - 1)
          (some ⟨pos, mv.promotion <|> mv.from_square.piece_at⟩) ∧
    (∀ j, j ≠ pos_stoi mv.from_square.position - 1 → j ≠ pos_stoi pos - 1 →
      (b.place_moved_piece mv pos).layout.get? j = b.layout.get? j) := by
  constructor
  · rfl
  · intro j h1 h2
    show ((b.layout.set _ _).set _ _).get? j = _
    rw [List.get?_set_ne _ _ (Ne.symm h2), List.get?_set_ne _ _ (Ne.symm h1)]

/-- C4 amended witnessed on the concrete castling simulation: the slot
characterization at the king's destination inspection, and the rook slot E14
unchanged. -/
theorem C4_amended_witness :
    (C4pre.place_moved_piece mC4chk ⟨5, 14⟩).layout =
      (C4pre.layout.set (pos_stoi mC4chk.from_square.position - 1)
          (some ⟨mC4chk.from_square.position, none⟩)).set (pos_stoi (⟨5, 14⟩ : Pos) - 1)
          (some ⟨⟨5, 14⟩, mC4chk.promotion <|> mC4chk.from_square.piece_at⟩) ∧
    (C4pre.place_moved_piece mC4chk ⟨5, 14⟩).layout.get? (pos_stoi ⟨4, 14⟩ - 1) =
      C4pre.layout.get? (pos_stoi ⟨4, 14⟩ - 1) :=
  ⟨(C4_amended C4pre mC4chk ⟨5, 14⟩).1,
   (C4_amended C4pre mC4chk ⟨5, 14⟩).2 (pos_stoi ⟨4, 14⟩ - 1) (by decide) (by decide)⟩

set_option maxRecDepth 1000000 in
/-- C4 counterexample: the validated castling move H14–F14 is recognized as
castling, yet on the scratch layout of its check recomputation (the
destination inspection) the companion rook still stands on E14 and its
castling destination G14 is empty — only the king was moved to F14. -/
theorem C4_counterexample :
    C4pre.is_valid mC4 false false = some (.yes mC4chk, C4pre) ∧
    mC4chk.castling = some (true, false) ∧
    (C4pre.place_moved_piece mC4chk ⟨5, 14⟩).layout.get? (pos_stoi ⟨4, 14⟩ - 1) =
      some (some ⟨⟨4, 14⟩, some (pc .rook .white)⟩) ∧
    (C4pre.place_moved_piece mC4chk ⟨5, 14⟩).layout.get? (pos_stoi ⟨6, 14⟩ - 1) =
      some (some ⟨⟨6, 14⟩, none⟩) ∧
    (C4pre.place_moved_piece mC4chk ⟨5, 14⟩).layout.get? (pos_stoi ⟨5, 14⟩ - 1) =
      some (some ⟨⟨5, 14⟩, some (pc .king .white)⟩) :=
  ⟨by decide, rfl, by decide, by decide, by decide⟩

/-- Boxed kings plus a white pawn on E09 facing a brown pawn on F08; white to
move, grey and black frozen. -/
def bT : Board :=
  mkB .white frWBfree crNone
    (greyBox ++ whiteBox ++ blackBox ++ brownBox ++
      [(⟨4, 9⟩, pc .pawn .white), (⟨5, 8⟩, pc .pawn .brown)])

/-- The white pawn push E09–E08 that blocks the brown pawn. -/
def mT : Move :=
  ⟨⟨⟨4, 9⟩, some (pc .pawn .white)⟩, some ⟨⟨4, 8⟩, none⟩, none, none, none⟩

/-- `mT` as validated: all-clear check map recorded. -/
def mT1 : Move :=
  { mT with
    checks := some [(.white, false), (.brown, false), (.grey, false), (.black, false)] }

/-- The state after apply-then-undo of `mT1` on `bT`. -/
def C1postT : Board := (((bT.move mT1).bind Board.pop).getD (false, bT)).2

/-- Brown king kept in a movable cluster that the white pawn on G08 can
check by pushing to G07. -/
def brownCluster : List (Pos × Piece) :=
  [(⟨7, 6⟩, pc .king .brown), (⟨6, 5⟩, pc .pawn .brown), (⟨6, 6⟩, pc .pawn .brown),
   (⟨7, 5⟩, pc .pawn .brown), (⟨7, 7⟩, pc .pawn .brown), (⟨8, 5⟩, pc .pawn .brown),
   (⟨8, 6⟩, pc .pawn .brown), (⟨8, 7⟩, pc .pawn .brown),
   (⟨2, 5⟩, pc .pawn .brown), (⟨3, 5⟩, pc .pawn .brown), (⟨4, 5⟩, pc .pawn .brown),
   (⟨5, 5⟩, pc .pawn .brown),
   (⟨2, 6⟩, pc .pawn .brown), (⟨3, 6⟩, pc .pawn .brown), (⟨4, 6⟩, pc .pawn .brown),
   (⟨5, 6⟩, pc .pawn .brown)]

/-- Boxed white, grey and black kings, the brown cluster, and a white pawn on
G08; white to move. -/
def bC : Board :=
  mkB .white frWBfree crNone
    (greyBox ++ whiteBox ++ blackBox ++ brownCluster ++ [(⟨6, 8⟩, pc .pawn .white)])

/-- The checking pawn push G08–G07. -/
def mC : Move :=
  ⟨⟨⟨6, 8⟩, some (pc .pawn .white)⟩, some ⟨⟨6, 7⟩, none⟩, none, none, none⟩

/-- `mC` as validated: the recorded check map has brown in check. -/
def mC1 : Move :=
  { mC with
    checks := some [(.white, false), (.brown, true), (.grey, false), (.black, false)] }

/-- The state after apply-then-undo of `mC1` on `bC`. -/
def C1postC : Board := (((bC.move mC1).bind Board.pop).getD (false, bC)).2

set_option maxRecDepth 1000000 in
/-- C1 counterexample: two validated moves on which undo immediately after
apply does not restore the pre-apply board.  After the blocking pawn push
E09–E08 on `bT` the turn comes back as brown instead of white (the backward
turn step is taken from the post-move turn over the recomputed frozen
dictionary).  After the checking pawn push G08–G07 on `bC` the checked
dictionary comes back with brown checked (pop restores the move's recorded
post-move check map, not the pre-move one). -/
theorem C1_counterexample :
    bT.is_valid mT false false = some (.yes mT1, bT) ∧
    (bT.move mT1).bind Board.pop = some (true, C1postT) ∧
    C1postT.turn ≠ bT.turn ∧
    bC.is_valid mC false false = some (.yes mC1, bC) ∧
    (bC.move mC1).bind Board.pop = some (true, C1postC) ∧
    C1postC.checked ≠ bC.checked :=
  ⟨by decide, by decide, by decide, by decide, by decide, by decide⟩

instance : Fintype Color where
  elems := ⟨[Color.white, Color.brown, Color.grey, Color.black], by decide⟩
  complete := fun c => by cases c <;> decide

/-- The turn-stepping recursion of `Board.next_turn`, abstracted to its two
inputs: the frozen dictionary and the current turn. -/
def ntModel : Nat → List (Color × Bool) → Color → Int → Option Color
  | 0, _, _, _ => none
  | fuel + 1, f, t0, jumps =>
    let t := colorAt ((((colorIndex t0 : Int) + jumps) % 4).toNat)
    match dget f t with
    | none => none
    | some true => ntModel fuel f t jumps
    | some false => some t

/-- `nextTurnFuel` reads only the turn and the frozen dictionary, and changes
only the turn. -/
theorem nextTurnFuel_model : ∀ (fuel : Nat) (s : Board) (j : Int),
    nextTurnFuel fuel s j =
      (ntModel fuel s.frozen s.turn j).map (fun t => { s with turn := t }) := by
  intro fuel
  induction fuel with
  | zero => intro s j; rfl
  | succ n ih =>
    intro s j
    unfold nextTurnFuel ntModel
    dsimp only
    cases hd : dget s.frozen (colorAt ((((colorIndex s.turn : Int) + j) % 4).toNat)) with
    | none => rfl
    | some fl =>
      cases fl with
      | true => rw [ih]
      | false => rfl

/-- Stepping the turn forward from an unfrozen color and then backward over
the same frozen dictionary returns to the start (checked over all canonical
dictionaries). -/
theorem ntModel_roundtrip :
    ∀ (f0 f1 f2 f3 : Bool) (t0 t1 : Color),
      dget [(.white, f0), (.brown, f1), (.grey, f2), (.black, f3)] t0 = some false →
      ntModel 4 [(.white, f0), (.brown, f1), (.grey, f2), (.black, f3)] t0 1 = some t1 →
      ntModel 4 [(.white, f0), (.brown, f1), (.grey, f2), (.black, f3)] t1 (-1) = some t0 := by
  decide

/-- Writing back the element already stored at an index leaves a list
unchanged. -/
theorem set_get_self {α : Type} : ∀ (l : List α) (i : Nat) (a : α),
    l.get? i = some a → l.set i a = l := by
  intro l
  induction l with
  | nil => intro i a h; cases h
  | cons x xs ih =>
    intro i a h
    cases i with
    | zero => cases h; rfl
    | succ i =>
      have e := ih i a h
      show x :: xs.set i a = x :: xs
      rw [e]

/-- C1 (amended): for a validated non-castling move whose recorded check map
equals the pre-move checked dictionary, on a board whose frozen dictionary is
canonical, whose mover is unfrozen and whose layout slots agree with the
move's stored squares, if applying the move leaves the recomputed frozen
dictionary unchanged (also on the undo side, for every reachable turn/winner
combination), then undo immediately after apply restores layout, turn,
castling rights, checked, frozen and graveyard to their exact pre-apply
values.  Without those frozen/check side conditions the restoration fails,
as the counterexample shows. -/
theorem C1_amended
    (b : Board) (mv : Move) (piece : Piece) (to_sq : Square) (bm : Board)
    (f0 f1 f2 f3 : Bool)
    (hp : mv.from_square.piece_at = some piece)
    (ht : mv.to_square = some to_sq)
    (hcast : mv.castling = none)
    (hchk : mv.checks = some b.checked)
    (hchkne : b.checked.isEmpty = false)
    (hfzd : b.frozen = [(.white, f0), (.brown, f1), (.grey, f2), (.black, f3)])
    (hturnfree : dget b.frozen b.turn = some false)
    (hL1 : b.layout.get? (pos_stoi mv.from_square.position - 1) =
      some (some mv.from_square))
    (hL2 : b.layout.get? (pos_stoi to_sq.position - 1) = some (some to_sq))
    (hne : pos_stoi mv.from_square.position - 1 ≠ pos_stoi to_sq.position - 1)
    (hm : b.move mv = some bm)
    (hfrozen : bm.frozen = b.frozen)
    (H5 : ∀ (t : Color), ∀ w ∈ [b.winner, some (get_teams piece.color).1],
        (Board.update_frozen { b with turn := t, winner := w }).map (·.frozen) =
          some b.frozen) :
    ∃ b2, bm.pop = some (true, b2) ∧ b2.layout = b.layout ∧ b2.turn = b.turn ∧
      b2.castling_rights = b.castling_rights ∧ b2.checked = b.checked ∧
      b2.frozen = b.frozen ∧ b2.graveyard = b.graveyard := by
  have hadopt : ∀ X : Board, X.move_adopt_checks mv = { X with checked := b.checked } := by
    intro X
    unfold Board.move_adopt_checks
    rw [hchk]
    dsimp only
    rw [hchkne]
    rfl
  have hrc : ∀ Y : Board, Y.pop_restore_checked mv = some { Y with checked := b.checked } := by
    intro Y
    unfold Board.pop_restore_checked
    rw [hchk]
    dsimp only
    rw [hchkne]
    rfl
  have hpc : ∀ Y : Board, Y.pop_castling mv = some Y := by
    intro Y
    unfold Board.pop_castling
    rw [hcast]
    rfl
  have hLrest :
      ((((b.layout.set (pos_stoi mv.from_square.position - 1)
            (some ⟨mv.from_square.position, none⟩)).set (pos_stoi to_sq.position - 1)
            (some ⟨to_sq.position, mv.promotion <|> mv.from_square.piece_at⟩)).set
          (pos_stoi mv.from_square.position - 1) (some mv.from_square)).set
        (pos_stoi to_sq.position - 1) (some to_sq)) = b.layout := by
    rw [List.set_comm _ _ _ hne, List.set_set, List.set_comm _ _ _ (Ne.symm hne),
      List.set_set, set_get_self _ _ _ hL1, set_get_self _ _ _ hL2]
  have hback : ∀ t1 : Color, ntModel 4 b.frozen b.turn 1 = some t1 →
      ntModel 4 b.frozen t1 (-1) = some b.turn := by
    intro t1 hnt1
    rw [hfzd]
    rw [hfzd] at hnt1 hturnfree
    exact ntModel_roundtrip f0 f1 f2 f3 b.turn t1 hturnfree hnt1
  unfold Board.move at hm
  rw [optBind_eq_some] at hm
  obtain ⟨p0, hp0, hm⟩ := hm
  rw [hp] at hp0
  injection hp0 with hp0
  subst hp0
  try dsimp only at hm
  rw [optBind_eq_some] at hm
  obtain ⟨t0, ht0, hm⟩ := hm
  rw [ht] at ht0
  injection ht0 with ht0
  subst ht0
  try dsimp only at hm
  rw [optBind_eq_some] at hm
  obtain ⟨b3, h3, hm⟩ := hm
  unfold Board.move_castling at h3
  rw [hcast] at h3
  rcases hcap : to_sq.piece_at with _ | p <;>
    rw [hcap] at h3 <;>
    try dsimp only at h3
  all_goals cases h3
  all_goals (
    dsimp only [Board.place_moved_piece, Board.update_square] at hm
    rw [hadopt] at hm
    rw [optBind_eq_some] at hm
    obtain ⟨b5, h5, hm⟩ := hm
    have hb5 := update_frozen_shape _ _ h5
    rw [hb5] at hm
    try dsimp only at hm
    rw [optBind_eq_some] at hm
    obtain ⟨ef, hef, hm⟩ := hm
    try dsimp only at hm)
  -- non-capture branch
  · have hfinish : ∀ (w : Option (List Color)), w ∈ [b.winner, some (get_teams piece.color).1] →
        ∀ t1 : Color, ntModel 4 b.frozen b.turn 1 = some t1 →
        ∃ b2, Board.pop
          { turn := t1, graveyard := b.graveyard,
            castling_rights := b.castling_rights, checked := b.checked,
            frozen := b.frozen,
            layout := (b.layout.set (pos_stoi mv.from_square.position - 1)
              (some ⟨mv.from_square.position, none⟩)).set (pos_stoi to_sq.position - 1)
              (some ⟨to_sq.position, mv.promotion <|> mv.from_square.piece_at⟩),
            winner := w, move_stack := b.move_stack ++ [mv] } = some (true, b2) ∧
          b2.layout = b.layout ∧ b2.turn = b.turn ∧
          b2.castling_rights = b.castling_rights ∧ b2.checked = b.checked ∧
          b2.frozen = b.frozen ∧ b2.graveyard = b.graveyard := by
      intro w hwmem t1 hnt1
      refine ⟨{ b with winner := w }, ?_, rfl, rfl, rfl, rfl, rfl, rfl⟩
      unfold Board.pop
      dsimp only
      rw [List.getLast?_concat]
      dsimp only
      rw [List.dropLast_concat]
      rw [optBind_eq_some]
      refine ⟨to_sq, ht, ?_⟩
      dsimp only
      rw [hcap]
      dsimp only [Option.isSome]
      try rw [if_neg (by decide : ¬(false = true))]
      rw [optBind_eq_some]
      refine ⟨_, rfl, ?_⟩
      dsimp only
      dsimp only [Board.update_square]
      rw [hLrest]
      rw [optBind_eq_some]
      refine ⟨_, hrc _, ?_⟩
      dsimp only
      have h5' := H5 t1 w hwmem
      rw [Option.map_eq_some'] at h5'
      obtain ⟨u, hu, huf⟩ := h5'
      have hus := update_frozen_shape _ _ hu
      rw [huf] at hus
      rw [hus] at hu
      rw [optBind_eq_some]
      refine ⟨_, hu, ?_⟩
      dsimp only
      rw [optBind_eq_some]
      refine ⟨_, hpc _, ?_⟩
      dsimp only
      rw [optBind_eq_some]
      refine ⟨{ b with winner := w }, ?_, ?_⟩
      · unfold Board.next_turn
        rw [nextTurnFuel_model]
        dsimp only
        rw [hback t1 hnt1]
        rfl
      · dsimp only
        rfl
    by_cases hw : ef.all id = true
    · rw [if_pos hw] at hm
      try dsimp only at hm
      unfold Board.next_turn at hm
      rw [nextTurnFuel_model] at hm
      dsimp only at hm
      rw [Option.map_eq_some'] at hm
      obtain ⟨t1, hnt1, hbm⟩ := hm
      subst hbm
      dsimp only at hfrozen
      rw [hfrozen] at hnt1 ⊢
      exact hfinish _ (by simp) t1 hnt1
    · rw [if_neg hw] at hm
      try dsimp only at hm
      unfold Board.next_turn at hm
      rw [nextTurnFuel_model] at hm
      dsimp only at hm
      rw [Option.map_eq_some'] at hm
      obtain ⟨t1, hnt1, hbm⟩ := hm
      subst hbm
      dsimp only at hfrozen
      rw [hfrozen] at hnt1 ⊢
      exact hfinish _ (by simp) t1 hnt1
  -- capture branch
  · have hfinish : ∀ (w : Option (List Color)), w ∈ [b.winner, some (get_teams piece.color).1] →
        ∀ t1 : Color, ntModel 4 b.frozen b.turn 1 = some t1 →
        ∃ b2, Board.pop
          { turn := t1, graveyard := b.graveyard ++ [p],
            castling_rights := b.castling_rights, checked := b.checked,
            frozen := b.frozen,
            layout := (b.layout.set (pos_stoi mv.from_square.position - 1)
              (some ⟨mv.from_square.position, none⟩)).set (pos_stoi to_sq.position - 1)
              (some ⟨to_sq.position, mv.promotion <|> mv.from_square.piece_at⟩),
            winner := w, move_stack := b.move_stack ++ [mv] } = some (true, b2) ∧
          b2.layout = b.layout ∧ b2.turn = b.turn ∧
          b2.castling_rights = b.castling_rights ∧ b2.checked = b.checked ∧
          b2.frozen = b.frozen ∧ b2.graveyard = b.graveyard := by
      intro w hwmem t1 hnt1
      refine ⟨{ b with winner := w }, ?_, rfl, rfl, rfl, rfl, rfl, rfl⟩
      unfold Board.pop
      dsimp only
      rw [List.getLast?_concat]
      dsimp only
      rw [List.dropLast_concat]
      rw [optBind_eq_some]
      refine ⟨to_sq, ht, ?_⟩
      dsimp only
      rw [hcap]
      dsimp only [Option.isSome]
      try rw [if_pos rfl]
      rw [if_neg (by simp : ¬((b.graveyard ++ [p]).isEmpty = true))]
      rw [optBind_eq_some]
      refine ⟨_, rfl, ?_⟩
      dsimp only
      rw [List.dropLast_concat]
      dsimp only [Board.update_square]
      rw [hLrest]
      rw [optBind_eq_some]
      refine ⟨_, hrc _, ?_⟩
      dsimp only
      have h5' := H5 t1 w hwmem
      rw [Option.map_eq_some'] at h5'
      obtain ⟨u, hu, huf⟩ := h5'
      have hus := update_frozen_shape _ _ hu
      rw [huf] at hus
      rw [hus] at hu
      rw [optBind_eq_some]
      refine ⟨_, hu, ?_⟩
      dsimp only
      rw [optBind_eq_some]
      refine ⟨_, hpc _, ?_⟩
      dsimp only
      rw [optBind_eq_some]
      refine ⟨{ b with winner := w }, ?_, ?_⟩
      · unfold Board.next_turn
        rw [nextTurnFuel_model]
        dsimp only
        rw [hback t1 hnt1]
        rfl
      · dsimp only
        rfl
    by_cases hw : ef.all id = true
    · rw [if_pos hw] at hm
      try dsimp only at hm
      unfold Board.next_turn at hm
      rw [nextTurnFuel_model] at hm
      dsimp only at hm
      rw [Option.map_eq_some'] at hm
      obtain ⟨t1, hnt1, hbm⟩ := hm
      subst hbm
      dsimp only at hfrozen
      rw [hfrozen] at hnt1 ⊢
      exact hfinish _ (by simp) t1 hnt1
    · rw [if_neg hw] at hm
      try dsimp only at hm
      unfold Board.next_turn at hm
      rw [nextTurnFuel_model] at hm
      dsimp only at hm
      rw [Option.map_eq_some'] at hm
      obtain ⟨t1, hnt1, hbm⟩ := hm
      subst hbm
      dsimp only at hfrozen
      rw [hfrozen] at hnt1 ⊢
      exact hfinish _ (by simp) t1 hnt1

/-- Boxed kings and a black pawn on K08; black to move, the other three
colors frozen exactly as `update_frozen` would recompute them. -/
def C1wpre : Board :=
  mkB .black frBlackOnly crNone
    (greyBox ++ whiteBox ++ blackBox ++ brownBox ++ [(⟨10, 8⟩, pc .pawn .black)])

/-- The board after applying the pawn push K08–L08 to `C1wpre`. -/
def C1wbm : Board := (C1wpre.move mC6succ).getD C1wpre

set_option maxRecDepth 1000000 in
/-- C1 witnessed on a concrete frozen-stable pawn push: apply-then-undo
restores all six fields. -/
theorem C1_amended_witness :
    ∃ b2, C1wbm.pop = some (true, b2) ∧ b2.layout = C1wpre.layout ∧
      b2.turn = C1wpre.turn ∧ b2.castling_rights = C1wpre.castling_rights ∧
      b2.checked = C1wpre.checked ∧ b2.frozen = C1wpre.frozen ∧
      b2.graveyard = C1wpre.graveyard :=
  C1_amended C1wpre mC6succ (pc .pawn .black) ⟨⟨11, 8⟩, none⟩ C1wbm
    true true true false
    rfl rfl rfl (by decide) (by decide) (by decide) (by decide) (by decide)
    (by decide) (by decide) (by decide) (by decide) (by decide)

/-- The check simulation returns its move argument with only the check map
updated: an accepting verdict carries the promotion field unchanged. -/
theorem sim_check_loop_promo :
    ∀ (ps : List Pos) (b : Board) (own tm : Color) (ic : Bool) (mv : Move)
      (m2 : Move) (b2 : Board),
      b.sim_check_loop own tm ic mv ps = some (.yes m2, b2) →
      m2.promotion = mv.promotion := by
  intro ps
  induction ps with
  | nil =>
    intro b own tm ic mv m2 b2 h
    unfold Board.sim_check_loop at h
    have h1 := congrArg Prod.fst (Option.some.inj h)
    injection h1 with h2
    rw [h2]
  | cons pos rest ih =>
    intro b own tm ic mv m2 b2 h
    unfold Board.sim_check_loop at h
    rw [optBind_eq_some] at h
    obtain ⟨sq, hsq, h⟩ := h
    rw [optBind_eq_some] at h
    obtain ⟨kings, hk, h⟩ := h
    rw [optBind_eq_some] at h
    obtain ⟨checks, hc, h⟩ := h
    dsimp only at h
    split at h
    · exact absurd (congrArg Prod.fst (Option.some.inj h))
        (fun hh => ValidRes.noConfusion hh)
    · split at h
      · exact absurd (congrArg Prod.fst (Option.some.inj h)) (fun hh => ValidRes.noConfusion hh)
      · have e := ih _ own tm ic _ m2 b2 h
        exact e

set_option maxHeartbeats 2000000 in
/-- An accepting `Board.is_valid` verdict returns the submitted move with its
promotion field unchanged (only castling and checks are filled in). -/
theorem is_valid_promo (b : Board) (mv : Move) (it ic : Bool) (m2 : Move)
    (b2 : Board) (h : b.is_valid mv it ic = some (.yes m2, b2)) :
    m2.promotion = mv.promotion := by
  unfold Board.is_valid at h
  split at h
  · exact absurd (congrArg Prod.fst (Option.some.inj h)) (fun hh => ValidRes.noConfusion hh)
  · rename_i to_sq hts
    split at h
    · exact absurd (congrArg Prod.fst (Option.some.inj h)) (fun hh => ValidRes.noConfusion hh)
    · rename_i piece hp
      by_cases c1 : (¬it = true ∧ piece.color ≠ b.turn)
      · rw [if_pos c1] at h
        exact absurd (congrArg Prod.fst (Option.some.inj h)) (fun hh => ValidRes.noConfusion hh)
      · rw [if_neg c1] at h
        by_cases c2 : mv.from_square = to_sq
        · rw [if_pos c2] at h
          exact absurd (congrArg Prod.fst (Option.some.inj h)) (fun hh => ValidRes.noConfusion hh)
        · rw [if_neg c2] at h
          dsimp only at h
          by_cases c3 : (match to_sq.piece_at with
            | some p => decide (p.color ∈ (get_teams piece.color).1)
            | none => false) = true
          · rw [if_pos c3] at h
            exact absurd (congrArg Prod.fst (Option.some.inj h)) (fun hh => ValidRes.noConfusion hh)
          · rw [if_neg c3] at h
            by_cases cR : list_in_list [mv.from_square.position, to_sq.position]
                fortress_region false = true
            · rw [if_pos cR] at h
              by_cases cK : (knightWallHit mv.from_square.position to_sq.position
                  || rookWallHit mv.from_square.position to_sq.position) = true
              · rw [if_pos cK] at h
                simp only [pure_bind] at h
                rw [if_pos trivial] at h
                exact absurd (congrArg Prod.fst (Option.some.inj h)) (fun hh => ValidRes.noConfusion hh)
              · rw [if_neg cK] at h
                rw [optBind_eq_some] at h
                obtain ⟨w, hw, h⟩ := h
                by_cases c4 : w = true
                · rw [if_pos c4] at h
                  exact absurd (congrArg Prod.fst (Option.some.inj h)) (fun hh => ValidRes.noConfusion hh)
                · rw [if_neg c4] at h
                  by_cases c5 : (mv.promotion.isSome = true ∧ piece.type ≠ PieceType.pawn)
                  · rw [if_pos c5] at h
                    exact absurd (congrArg Prod.fst (Option.some.inj h)) (fun hh => ValidRes.noConfusion hh)
                  · rw [if_neg c5] at h
                    by_cases c6 : (mv.promotion.isSome = true ∧
                        to_sq.position ∉ get_pawn_promotion_rank piece.color)
                    · rw [if_pos c6] at h
                      exact absurd (congrArg Prod.fst (Option.some.inj h)) (fun hh => ValidRes.noConfusion hh)
                    · rw [if_neg c6] at h
                      by_cases c7 : (match to_sq.piece_at with
                        | some p => decide (p.color ∈ b.currently_frozen)
                        | none => false) = true
                      · rw [if_pos c7] at h
                        exact absurd (congrArg Prod.fst (Option.some.inj h)) (fun hh => ValidRes.noConfusion hh)
                      · rw [if_neg c7] at h
                        rw [optBind_eq_some] at h
                        obtain ⟨pm, hpm, h⟩ := h
                        by_cases c8 : to_sq ∉ pm
                        · rw [if_pos c8] at h
                          exact absurd (congrArg Prod.fst (Option.some.inj h)) (fun hh => ValidRes.noConfusion hh)
                        · rw [if_neg c8] at h
                          by_cases cS : mv.from_square = ⟨pos_rot90 ⟨2, 8⟩ (revColorIndex piece.color),
                              some ⟨PieceType.king, piece.color⟩⟩
                          rotate_left
                          · rw [if_neg cS, if_neg (by simp)] at h
                            simp only [pure_bind] at h
                            exact Eq.trans (sim_check_loop_promo _ b _ _ ic _ m2 b2 h) rfl
                          · rw [if_pos cS] at h
                            by_cases c6a : to_sq.position = pos_rot90 ⟨2, 6⟩ (revColorIndex piece.color)
                            · rw [if_pos c6a, if_pos rfl] at h
                              rw [optBind_eq_some] at h
                              obtain ⟨cp, hcp, h⟩ := h
                              exact Eq.trans (sim_check_loop_promo _ b _ _ ic _ m2 b2 h) rfl
                            · rw [if_neg c6a] at h
                              by_cases c10a : to_sq.position = pos_rot90 ⟨2, 10⟩ (revColorIndex piece.color)
                              · rw [if_pos c10a, if_pos rfl] at h
                                rw [optBind_eq_some] at h
                                obtain ⟨cp, hcp, h⟩ := h
                                exact Eq.trans (sim_check_loop_promo _ b _ _ ic _ m2 b2 h) rfl
                              · rw [if_neg c10a, if_neg (by simp)] at h
                                simp only [pure_bind] at h
                                exact Eq.trans (sim_check_loop_promo _ b _ _ ic _ m2 b2 h) rfl
            · rw [if_neg cR] at h
              simp only [pure_bind] at h
              rw [if_neg (by simp)] at h
              by_cases c5 : (mv.promotion.isSome = true ∧ piece.type ≠ PieceType.pawn)
              · rw [if_pos c5] at h
                exact absurd (congrArg Prod.fst (Option.some.inj h)) (fun hh => ValidRes.noConfusion hh)
              · rw [if_neg c5] at h
                by_cases c6 : (mv.promotion.isSome = true ∧
                    to_sq.position ∉ get_pawn_promotion_rank piece.color)
                · rw [if_pos c6] at h
                  exact absurd (congrArg Prod.fst (Option.some.inj h)) (fun hh => ValidRes.noConfusion hh)
                · rw [if_neg c6] at h
                  by_cases c7 : (match to_sq.piece_at with
                    | some p => decide (p.color ∈ b.currently_frozen)
                    | none => false) = true
                  · rw [if_pos c7] at h
                    exact absurd (congrArg Prod.fst (Option.some.inj h)) (fun hh => ValidRes.noConfusion hh)
                  · rw [if_neg c7] at h
                    rw [optBind_eq_some] at h
                    obtain ⟨pm, hpm, h⟩ := h
                    by_cases c8 : to_sq ∉ pm
                    · rw [if_pos c8] at h
                      exact absurd (congrArg Prod.fst (Option.some.inj h)) (fun hh => ValidRes.noConfusion hh)
                    · rw [if_neg c8] at h
                      by_cases cS : mv.from_square = ⟨pos_rot90 ⟨2, 8⟩ (revColorIndex piece.color),
                          some ⟨PieceType.king, piece.color⟩⟩
                      rotate_left
                      · rw [if_neg cS, if_neg (by simp)] at h
                        simp only [pure_bind] at h
                        exact Eq.trans (sim_check_loop_promo _ b _ _ ic _ m2 b2 h) rfl
                      · rw [if_pos cS] at h
                        by_cases c6a : to_sq.position = pos_rot90 ⟨2, 6⟩ (revColorIndex piece.color)
                        · rw [if_pos c6a, if_pos rfl] at h
                          rw [optBind_eq_some] at h
                          obtain ⟨cp, hcp, h⟩ := h
                          exact Eq.trans (sim_check_loop_promo _ b _ _ ic _ m2 b2 h) rfl
                        · rw [if_neg c6a] at h
                          by_cases c10a : to_sq.position = pos_rot90 ⟨2, 10⟩ (revColorIndex piece.color)
                          · rw [if_pos c10a, if_pos rfl] at h
                            rw [optBind_eq_some] at h
                            obtain ⟨cp, hcp, h⟩ := h
                            exact Eq.trans (sim_check_loop_promo _ b _ _ ic _ m2 b2 h) rfl
                          · rw [if_neg c10a, if_neg (by simp)] at h
                            simp only [pure_bind] at h
                            exact Eq.trans (sim_check_loop_promo _ b _ _ ic _ m2 b2 h) rfl

/-- C3 (amended): the promotion-doubling step of
`Move.possible_legal_moves_color` attempts a pawn move onto the promotion
rank exactly twice — first WITHOUT a promotion, then with a queen promotion —
and appends each variant that validates, in that order: the first generated
entry for such a destination is a non-promoting move and the second is its
queen-promotion twin, so a non-promotion move to a promotion-rank
destination IS generated whenever it validates. -/
theorem C3_amended (b b0 b1 : Board) (sq psq : Square) (color : Color)
    (acc : List Move) (p : Piece)
    (hsq : sq.piece_at = some p)
    (hpromo : decide (p.type = PieceType.pawn ∧
      psq.position ∈ get_pawn_promotion_rank p.color) = true)
    (r0 r1 : ValidRes)
    (h0 : b.is_valid ⟨sq, some psq, none, none, none⟩ true true = some (r0, b0))
    (h1 : b0.is_valid ⟨sq, some psq, some ⟨.queen, color⟩, none, none⟩ true true =
      some (r1, b1)) :
    List.foldlM (fun (st3 : List Move × Board) cflag => do
        let mv : Move :=
          ⟨sq, some psq,
           if (match sq.piece_at with
              | some q => decide (q.type = PieceType.pawn ∧
                  psq.position ∈ get_pawn_promotion_rank q.color)
              | none => false) && cflag then some ⟨PieceType.queen, color⟩ else none,
           none, none⟩
        let rb ← st3.2.is_valid mv true true
        match rb.1 with
        | .yes m2 => pure (st3.1 ++ [m2], rb.2)
        | .no _ _ => pure (st3.1, rb.2))
      (acc, b) [false, true] =
      some (acc ++
        (match r0 with | .yes m2 => [m2] | .no _ _ => []) ++
        (match r1 with | .yes m2 => [m2] | .no _ _ => []), b1) ∧
    (∀ m2, r0 = .yes m2 → m2.promotion = none) ∧
    (∀ m2, r1 = .yes m2 → m2.promotion = some ⟨PieceType.queen, color⟩) := by
  have hd : (match sq.piece_at with
      | some q => decide (q.type = PieceType.pawn ∧
          psq.position ∈ get_pawn_promotion_rank q.color)
      | none => false) = true := by rw [hsq]; exact hpromo
  refine ⟨?_, ?_, ?_⟩
  · rw [hd]
    rw [List.foldlM_cons]
    dsimp only
    rw [show (if (true && false) = true then some (⟨PieceType.queen, color⟩ : Piece)
        else none) = (none : Option Piece) from rfl]
    rw [optBind_eq_some]
    rcases r0 with ⟨e0, m0x⟩ | ⟨m0x⟩ <;> rcases r1 with ⟨e1, m1x⟩ | ⟨m1x⟩
    · refine ⟨(acc, b0), ?_, ?_⟩
      · rw [optBind_eq_some]
        exact ⟨(.no e0 m0x, b0), h0, rfl⟩
      · rw [List.foldlM_cons]
        dsimp only
        rw [show (if (true && true) = true then some (⟨PieceType.queen, color⟩ : Piece)
            else none) = (some ⟨PieceType.queen, color⟩ : Option Piece) from rfl]
        rw [optBind_eq_some]
        refine ⟨(acc, b1), ?_, by simp⟩
        rw [optBind_eq_some]
        exact ⟨(.no e1 m1x, b1), h1, rfl⟩
    · refine ⟨(acc, b0), ?_, ?_⟩
      · rw [optBind_eq_some]
        exact ⟨(.no e0 m0x, b0), h0, rfl⟩
      · rw [List.foldlM_cons]
        dsimp only
        rw [show (if (true && true) = true then some (⟨PieceType.queen, color⟩ : Piece)
            else none) = (some ⟨PieceType.queen, color⟩ : Option Piece) from rfl]
        rw [optBind_eq_some]
        refine ⟨(acc ++ [m1x], b1), ?_, by simp⟩
        rw [optBind_eq_some]
        exact ⟨(.yes m1x, b1), h1, rfl⟩
    · refine ⟨(acc ++ [m0x], b0), ?_, ?_⟩
      · rw [optBind_eq_some]
        exact ⟨(.yes m0x, b0), h0, rfl⟩
      · rw [List.foldlM_cons]
        dsimp only
        rw [show (if (true && true) = true then some (⟨PieceType.queen, color⟩ : Piece)
            else none) = (some ⟨PieceType.queen, color⟩ : Option Piece) from rfl]
        rw [optBind_eq_some]
        refine ⟨(acc ++ [m0x], b1), ?_, by simp⟩
        rw [optBind_eq_some]
        exact ⟨(.no e1 m1x, b1), h1, rfl⟩
    · refine ⟨(acc ++ [m0x], b0), ?_, ?_⟩
      · rw [optBind_eq_some]
        exact ⟨(.yes m0x, b0), h0, rfl⟩
      · rw [List.foldlM_cons]
        dsimp only
        rw [show (if (true && true) = true then some (⟨PieceType.queen, color⟩ : Piece)
            else none) = (some ⟨PieceType.queen, color⟩ : Option Piece) from rfl]
        rw [optBind_eq_some]
        refine ⟨(acc ++ [m0x] ++ [m1x], b1), ?_, by simp⟩
        rw [optBind_eq_some]
        exact ⟨(.yes m1x, b1), h1, rfl⟩
  · intro m2 hr
    subst hr
    exact Eq.trans (is_valid_promo _ _ _ _ _ _ h0) rfl
  · intro m2 hr
    subst hr
    exact Eq.trans (is_valid_promo _ _ _ _ _ _ h1) rfl

/-- Boxed kings plus a white pawn on H08, one step short of the white
promotion rank; white to move. -/
def bP : Board :=
  mkB .white frWBfree crNone
    (greyBox ++ whiteBox ++ blackBox ++ brownBox ++ [(⟨7, 8⟩, pc .pawn .white)])

/-- The white pawn's square H08. -/
def C3sq : Square := ⟨⟨7, 8⟩, some (pc .pawn .white)⟩

/-- The promotion-rank destination square H07. -/
def C3psq : Square := ⟨⟨7, 7⟩, none⟩

/-- The validated non-promoting H08–H07 move. -/
def m0wchk : Move :=
  ⟨C3sq, some C3psq, none, none,
    some [(.white, false), (.brown, false), (.grey, false), (.black, false)]⟩

/-- The validated queen-promotion H08–H07 move. -/
def m1wchk : Move :=
  ⟨C3sq, some C3psq, some ⟨.queen, .white⟩, none,
    some [(.white, false), (.brown, false), (.grey, false), (.black, false)]⟩

/-- The full legal-move enumeration of white on `bP`. -/
def C3all : List Move :=
  ((Move.possible_legal_moves_color bP .white).getD ([], bP)).1

/-- The enumerated moves from H08 to H07. -/
def C3pair : List Move := C3all.filter (fun m =>
  decide (m.from_square.position = ⟨7, 8⟩) &&
  decide (m.to_square.map (·.position) = some ⟨7, 7⟩))

set_option maxRecDepth 1000000 in
/-- C3 witnessed on the concrete board: the doubling fold generates exactly
the validated non-promoting move followed by its queen-promotion twin. -/
theorem C3_amended_witness :
    List.foldlM (fun (st3 : List Move × Board) cflag => do
        let mv : Move :=
          ⟨C3sq, some C3psq,
           if (match C3sq.piece_at with
              | some q => decide (q.type = PieceType.pawn ∧
                  C3psq.position ∈ get_pawn_promotion_rank q.color)
              | none => false) && cflag then some ⟨PieceType.queen, Color.white⟩
           else none,
           none, none⟩
        let rb ← st3.2.is_valid mv true true
        match rb.1 with
        | .yes m2 => pure (st3.1 ++ [m2], rb.2)
        | .no _ _ => pure (st3.1, rb.2))
      ([], bP) [false, true] =
      some ([] ++ [m0wchk] ++ [m1wchk], bP) ∧
    m0wchk.promotion = none ∧
    m1wchk.promotion = some ⟨PieceType.queen, Color.white⟩ := by
  have H := C3_amended bP bP bP C3sq C3psq .white [] (pc .pawn .white) rfl
    (by decide) (.yes m0wchk) (.yes m1wchk) (by decide) (by decide)
  exact ⟨H.1, H.2.1 m0wchk rfl, H.2.2 m1wchk rfl⟩

set_option maxRecDepth 1000000 in
/-- C3 counterexample: on `bP` the destination H07 lies on white's promotion
rank, the enumeration yields exactly the two H08–H07 entries, and the first
of them is a NON-promoting move — contradicting the claim that both entries
are promoting variants and that no non-promotion move to a promotion-rank
destination is generated. -/
theorem C3_counterexample :
    (⟨7, 7⟩ : Pos) ∈ get_pawn_promotion_rank Color.white ∧
    Move.possible_legal_moves_color bP Color.white = some (C3all, bP) ∧
    C3all = C3pair ∧
    C3pair.map (·.promotion) = [none, some ⟨.queen, .white⟩] :=
  ⟨by decide, by decide, by decide, by decide⟩
